import Mathlib

/-!
# Verification development for `calculator02.cpp`

A shallow embedding of the calculator of `src/calculator02.cpp` (the token stream with
its one-token buffer, the three grammar functions `primary`, `term`, `expression`, and
the driver `calculate`).

Modelling decisions, all visible in the definitions below:

* The C++ `double` type is not fixed: every definition is generic in a type `D` with the
  operations the program applies to doubles (`DoubleOps`).  Theorems that hold for all
  inputs are stated with these operations, so they hold for IEEE arithmetic as well as
  for the exact rational instance `DoubleOps ℚ` that is used to evaluate concrete inputs
  (all concrete inputs below stay in a range where binary64 arithmetic is exact).
* `int` is 32 bits wide; `result *= i` wraps (`wrap32`).
* `cin` is the list of characters that are still unread together with its failure flag.
* A thrown `runtime_error` is the outcome `Res.err`; the global stream state at the
  throw is kept in the outcome.
* The mutual recursion and the `while` loops are driven by a fuel argument; `none`
  means that the fuel ran out.  Statements about results are made for every amount of
  fuel from a stated bound on.
* Reading `ch` after `cin >> ch` read nothing (end of input, failed stream) is reading
  an uninitialised variable; the model ends such a run with the outcome `Err.noInput`.
-/

namespace Calculator

/-! ## The `double` operations used by the program -/

/-- The operations on `double` that the program uses. -/
class DoubleOps (D : Type) where
  /-- conversion `int → double` (`return left;`, `value(0)`) -/
  ofInt : Int → D
  /-- conversion `double → int` (`int left = t.value;`) -/
  toInt : D → Int
  /-- the value `cin >> val` stores for the decimal literal `m · 10^e` -/
  ofDecimal : Nat → Int → D
  /-- unary minus -/
  neg : D → D
  /-- the operator `+` -/
  add : D → D → D
  /-- the operator `-` -/
  sub : D → D → D
  /-- the operator `*` -/
  mul : D → D → D
  /-- the operator `/` -/
  div : D → D → D
  /-- the library function `fmod` -/
  fmod : D → D → D
  /-- the test `d == 0` -/
  isZero : D → Bool

/-- Facts about `double` that some theorems rely on; each holds for IEEE binary64 with a
32-bit `int`. -/
class LawfulDoubleOps (D : Type) [DoubleOps D] : Prop where
  /-- a decimal integer literal below `2^31` converts to `int` without loss -/
  toInt_ofDecimal : ∀ n : Nat, n < 2147483648 →
    DoubleOps.toInt (DoubleOps.ofDecimal n 0 : D) = (n : Int)
  /-- negation is an involution (it flips the sign bit) -/
  neg_neg : ∀ d : D, DoubleOps.neg (DoubleOps.neg d) = d
  /-- an `int` converts to a zero double only if it is zero -/
  isZero_ofInt : ∀ k : Int, -2147483648 ≤ k → k < 2147483648 →
    (DoubleOps.isZero (DoubleOps.ofInt k : D) = true ↔ k = 0)

/-- Truncation toward zero of a rational. -/
def truncQ (q : ℚ) : Int := if 0 ≤ q then ⌊q⌋ else ⌈q⌉

/-- Conversion `double → int` on the rational instance: truncation toward zero; a value
outside the range of `int` has no defined conversion in C++, the model returns what the
x86-64 conversion instruction returns (`INT_MIN`). -/
def toIntQ (q : ℚ) : Int :=
  let t := truncQ q
  if -2147483648 ≤ t ∧ t < 2147483648 then t else -2147483648

/-- `fmod` on the rational instance: `a - b * trunc (a / b)`. -/
def fmodQ (a b : ℚ) : ℚ := a - b * (truncQ (a / b) : ℚ)

/-- Exact rational arithmetic as an instance of the `double` operations. -/
instance instDoubleOpsRat : DoubleOps ℚ where
  ofInt k := (k : ℚ)
  toInt := toIntQ
  ofDecimal m e := (m : ℚ) * (10 : ℚ) ^ e
  neg d := -d
  add a b := a + b
  sub a b := a - b
  mul a b := a * b
  div a b := a / b
  fmod := fmodQ
  isZero d := decide (d = 0)

/-! ## Tokens, the input stream and the token stream -/

/-- The message of each `error(...)` call of the program. -/
inductive Err
  | badToken
  | putbackFull
  | rparenExpected
  | rbraceExpected
  | negFactorial
  | primaryExpected
  | divZero
  | modZero
  /-- not thrown by the program: `cin >> ch` read nothing (end of input or failed
  stream), so `ch` is uninitialised when `get()` inspects it -/
  | noInput
deriving DecidableEq, Repr

/-- The text passed to `error` at each error site (`noInput` has none in the program). -/
def Err.message : Err → String
  | .badToken => "Bad token"
  | .putbackFull => "putback() into a full buffer"
  | .rparenExpected => "\x27)\x27 expected"
  | .rbraceExpected => "\x27\x7d\x27 expected"
  | .negFactorial => "Factorial of a negative number is undefined"
  | .primaryExpected => "primary expected"
  | .divZero => "divide by zero"
  | .modZero => "%: divide by zero"
  | .noInput => ""

/-- `class Token`: a kind and, for numbers, a value. -/
structure Token (D : Type) where
  kind : Char
  value : D
deriving DecidableEq, Repr

/-- `Token::number`. -/
def Token.number : Char := '8'

/-- `constexpr char quit`. -/
def quit : Char := 'q'

/-- `constexpr char print`. -/
def print : Char := ';'

/-- `constexpr char prompt`. -/
def prompt : Char := '>'

/-- `constexpr char result`. -/
def result : Char := '='

/-- The constructor `Token(char ch)`: the value is `0`. -/
def Token.ofChar {D : Type} [DoubleOps D] (ch : Char) : Token D := ⟨ch, DoubleOps.ofInt 0⟩

/-- The standard input: the characters not yet read and the failure flag. -/
structure Istream where
  chars : List Char
  failed : Bool
deriving DecidableEq, Repr

/-- One item written to `cout`. -/
inductive Out (D : Type)
  | chr (c : Char)
  | val (d : D)
  | endl
deriving DecidableEq, Repr

/-- `class Token_stream`: the flag `full` and the buffered token. -/
structure Token_stream (D : Type) where
  full : Bool
  buffer : Token D
deriving DecidableEq, Repr

/-- The global state of the program: the token stream `ts`, `cin` and what was written
to `cout`. -/
structure World (D : Type) where
  ts : Token_stream D
  cin : Istream
  cout : List (Out D)
deriving DecidableEq, Repr

/-- Outcome of a call: a returned value or a thrown error, with the state it leaves. -/
inductive Res (D : Type) (α : Type)
  | ok (a : α) (w : World D)
  | err (e : Err) (w : World D)
deriving DecidableEq, Repr

/-- The constructor `Token_stream()`: empty buffer, `buffer(0)`. -/
def Token_stream.new {D : Type} [DoubleOps D] : Token_stream D :=
  ⟨false, Token.ofChar (Char.ofNat 0)⟩

/-- The state at program start on the input text `s`. -/
def World.start {D : Type} [DoubleOps D] (s : String) : World D :=
  ⟨Token_stream.new, ⟨s.toList, false⟩, []⟩

/-- Whitespace as skipped by `>>`. -/
def isspace (c : Char) : Bool :=
  c == ' ' || c == '\t' || c == '\n' || c == '\x0b' || c == '\x0c' || c == '\r'

/-- Drop leading whitespace. -/
def skipws : List Char → List Char
  | [] => []
  | c :: cs => if isspace c then skipws cs else c :: cs

/-- The extraction `cin >> ch` for a `char`: skips whitespace and reads one character;
reads nothing on a failed stream or at the end of the input, which sets the failure
flag. -/
def Istream.readChar (i : Istream) : Option Char × Istream :=
  if i.failed then (none, i)
  else
    match skipws i.chars with
    | [] => (none, ⟨[], true⟩)
    | c :: cs => (some c, ⟨cs, false⟩)

/-- The call `cin.putback(ch)`. -/
def Istream.putback (i : Istream) (ch : Char) : Istream := ⟨ch :: i.chars, i.failed⟩

/-- Value of a decimal digit character. -/
def digitVal (c : Char) : Nat := c.toNat - 48

/-- Value of a string of decimal digits. -/
def decVal (ds : List Char) : Nat := ds.foldl (fun n c => 10 * n + digitVal c) 0

/-- The longest run of leading digits and what follows it. -/
def takeDigits : List Char → List Char × List Char
  | [] => ([], [])
  | c :: cs =>
    if c.isDigit then ((takeDigits cs).1.cons c, (takeDigits cs).2) else ([], c :: cs)

/-- The fractional part of a literal: a `.` and the digits after it, if present. -/
def takeFraction : List Char → List Char × List Char
  | '.' :: cs => takeDigits cs
  | cs => ([], cs)

/-- The exponent part of a literal: `e` or `E`, an optional sign and digits.  Returns
`none` when no exponent marker is present, otherwise the sign, the digits (possibly
none) and the rest. -/
def takeExponent : List Char → Option (Bool × List Char × List Char)
  | [] => none
  | c :: cs =>
    if c = 'e' ∨ c = 'E' then
      match cs with
      | '-' :: r => some (true, takeDigits r)
      | '+' :: r => some (false, takeDigits r)
      | r => some (false, takeDigits r)
    else none

/-- Modelled from the spec: the library extraction `cin >> val` for a `double`, which is
not code of this repository; following recognition rule 2 of the spec (leading digits,
optional fractional part, optional exponent).  A text that is no literal (no digit in
the mantissa, or an exponent marker without digits) stores `0` and sets the failure
flag, as the C++ standard prescribes. -/
def Istream.readDouble {D : Type} [DoubleOps D] (i : Istream) : D × Istream :=
  let ip := takeDigits i.chars
  let fp := takeFraction ip.2
  let mant := ip.1 ++ fp.1
  match takeExponent fp.2 with
  | none =>
    if mant = [] then (DoubleOps.ofInt 0, ⟨fp.2, true⟩)
    else (DoubleOps.ofDecimal (decVal mant) (-(fp.1.length : Int)), ⟨fp.2, i.failed⟩)
  | some (negative, ep, rest) =>
    if mant = [] ∨ ep = [] then (DoubleOps.ofInt 0, ⟨rest, true⟩)
    else
      let e : Int := if negative then -(decVal ep : Int) else (decVal ep : Int)
      (DoubleOps.ofDecimal (decVal mant) (e - (fp.1.length : Int)), ⟨rest, i.failed⟩)

/-- The characters that `get()` returns as tokens of their own kind. -/
def isSymbol (ch : Char) : Bool :=
  ch == print || ch == quit || ch == '(' || ch == ')' || ch == '+' || ch == '-' ||
  ch == '*' || ch == '/' || ch == '{' || ch == '}' || ch == '!' || ch == '%'

/-- `void Token_stream::putback(Token t)`. -/
def Token_stream.putback {D : Type} (t : Token D) (w : World D) : Res D Unit :=
  if w.ts.full then .err .putbackFull w
  else .ok () { w with ts := ⟨true, t⟩ }

/-- `Token Token_stream::get()`. -/
def Token_stream.get {D : Type} [DoubleOps D] (w : World D) : Res D (Token D) :=
  if w.ts.full then .ok w.ts.buffer { w with ts := ⟨false, w.ts.buffer⟩ }
  else
    match w.cin.readChar with
    | (none, i) => .err .noInput { w with cin := i }
    | (some ch, i) =>
      if isSymbol ch then .ok (Token.ofChar ch) { w with cin := i }
      else if ch = '.' ∨ ch.isDigit then
        let r : D × Istream := (i.putback ch).readDouble
        .ok ⟨Token.number, r.1⟩ { w with cin := r.2 }
      else .err .badToken { w with cin := i }

/-! ## The grammar functions -/

/-- 32-bit two's complement wrap-around of an `int` result. -/
def wrap32 (x : Int) : Int := (x + 2147483648) % 4294967296 - 2147483648

/-- The loop `for (int i = left; i > 1; --i) result *= i;` started with `i` and
`result`. -/
def factLoop : Nat → Int → Int
  | 0, res => res
  | i + 1, res => if i + 1 > 1 then factLoop i (wrap32 (res * ((i : Int) + 1))) else res

mutual

/-- `double primary()`. -/
def primary {D : Type} [DoubleOps D] : Nat → World D → Option (Res D D)
  | 0, _ => none
  | n + 1, w =>
    match Token_stream.get w with
    | .err e w1 => some (.err e w1)
    | .ok t w1 =>
      if t.kind = '(' then
        match expression n w1 with
        | none => none
        | some (.err e w2) => some (.err e w2)
        | some (.ok d w2) =>
          match Token_stream.get w2 with
          | .err e w3 => some (.err e w3)
          | .ok t2 w3 =>
            if t2.kind ≠ ')' then some (.err .rparenExpected w3) else some (.ok d w3)
      else if t.kind = '{' then
        match expression n w1 with
        | none => none
        | some (.err e w2) => some (.err e w2)
        | some (.ok d w2) =>
          match Token_stream.get w2 with
          | .err e w3 => some (.err e w3)
          | .ok t2 w3 =>
            if t2.kind ≠ '}' then some (.err .rbraceExpected w3) else some (.ok d w3)
      else if t.kind = Token.number then
        let left : Int := DoubleOps.toInt t.value
        match Token_stream.get w1 with
        | .err e w2 => some (.err e w2)
        | .ok t2 w2 =>
          if t2.kind = '!' then
            if left < 0 then some (.err .negFactorial w2)
            else some (.ok (DoubleOps.ofInt (factLoop left.toNat 1)) w2)
          else
            match Token_stream.putback t2 w2 with
            | .err e w3 => some (.err e w3)
            | .ok _ w3 => some (.ok (DoubleOps.ofInt left) w3)
      else if t.kind = '-' then
        match primary n w1 with
        | none => none
        | some (.err e w2) => some (.err e w2)
        | some (.ok d w2) => some (.ok (DoubleOps.neg d) w2)
      else if t.kind = '+' then
        primary n w1
      else some (.err .primaryExpected w1)

/-- The `while (true)` loop of `term()` with the running value `left` and the token
`t` last read. -/
def termLoop {D : Type} [DoubleOps D] : Nat → D → Token D → World D → Option (Res D D)
  | 0, _, _, _ => none
  | n + 1, left, t, w =>
    if t.kind = '*' then
      match primary n w with
      | none => none
      | some (.err e w1) => some (.err e w1)
      | some (.ok d w1) =>
        match Token_stream.get w1 with
        | .err e w2 => some (.err e w2)
        | .ok t2 w2 => termLoop n (DoubleOps.mul left d) t2 w2
    else if t.kind = '/' then
      match primary n w with
      | none => none
      | some (.err e w1) => some (.err e w1)
      | some (.ok d w1) =>
        if DoubleOps.isZero d then some (.err .divZero w1)
        else
          match Token_stream.get w1 with
          | .err e w2 => some (.err e w2)
          | .ok t2 w2 => termLoop n (DoubleOps.div left d) t2 w2
    else if t.kind = '%' then
      match primary n w with
      | none => none
      | some (.err e w1) => some (.err e w1)
      | some (.ok d w1) =>
        if DoubleOps.isZero d then some (.err .modZero w1)
        else
          match Token_stream.get w1 with
          | .err e w2 => some (.err e w2)
          | .ok t2 w2 => termLoop n (DoubleOps.fmod left d) t2 w2
    else
      match Token_stream.putback t w with
      | .err e w1 => some (.err e w1)
      | .ok _ w1 => some (.ok left w1)

/-- `double term()`. -/
def term {D : Type} [DoubleOps D] : Nat → World D → Option (Res D D)
  | 0, _ => none
  | n + 1, w =>
    match primary n w with
    | none => none
    | some (.err e w1) => some (.err e w1)
    | some (.ok left w1) =>
      match Token_stream.get w1 with
      | .err e w2 => some (.err e w2)
      | .ok t w2 => termLoop n left t w2

/-- The `while (true)` loop of `expression()` with the running value `left` and the
token `t` last read. -/
def expressionLoop {D : Type} [DoubleOps D] :
    Nat → D → Token D → World D → Option (Res D D)
  | 0, _, _, _ => none
  | n + 1, left, t, w =>
    if t.kind = '+' then
      match term n w with
      | none => none
      | some (.err e w1) => some (.err e w1)
      | some (.ok d w1) =>
        match Token_stream.get w1 with
        | .err e w2 => some (.err e w2)
        | .ok t2 w2 => expressionLoop n (DoubleOps.add left d) t2 w2
    else if t.kind = '-' then
      match term n w with
      | none => none
      | some (.err e w1) => some (.err e w1)
      | some (.ok d w1) =>
        match Token_stream.get w1 with
        | .err e w2 => some (.err e w2)
        | .ok t2 w2 => expressionLoop n (DoubleOps.sub left d) t2 w2
    else
      match Token_stream.putback t w with
      | .err e w1 => some (.err e w1)
      | .ok _ w1 => some (.ok left w1)

/-- `double expression()`. -/
def expression {D : Type} [DoubleOps D] : Nat → World D → Option (Res D D)
  | 0, _ => none
  | n + 1, w =>
    match term n w with
    | none => none
    | some (.err e w1) => some (.err e w1)
    | some (.ok left w1) =>
      match Token_stream.get w1 with
      | .err e w2 => some (.err e w2)
      | .ok t w2 => expressionLoop n left t w2

end

/-! ## The driver -/

/-- The loop `while (t.kind == print) t = ts.get();` of `calculate()`. -/
def skipPrints {D : Type} [DoubleOps D] : Nat → Token D → World D → Option (Res D (Token D))
  | 0, _, _ => none
  | n + 1, t, w =>
    if t.kind = print then
      match Token_stream.get w with
      | .err e w1 => some (.err e w1)
      | .ok t2 w1 => skipPrints n t2 w1
    else some (.ok t w)

/-- `void calculate()`.  In `cout << result << expression() << endl` the marker is
written before `expression()` is called (the operands of `<<` are evaluated from left to
right). -/
def calculate {D : Type} [DoubleOps D] : Nat → World D → Option (Res D Unit)
  | 0, _ => none
  | n + 1, w =>
    if w.cin.failed then some (.ok () w)
    else
      match Token_stream.get { w with cout := w.cout ++ [Out.chr prompt] } with
      | .err e w1 => some (.err e w1)
      | .ok t w1 =>
        match skipPrints n t w1 with
        | none => none
        | some (.err e w2) => some (.err e w2)
        | some (.ok t2 w2) =>
          if t2.kind = quit then some (.ok () w2)
          else
            match Token_stream.putback t2 w2 with
            | .err e w3 => some (.err e w3)
            | .ok _ w3 =>
              match expression n { w3 with cout := w3.cout ++ [Out.chr result] } with
              | none => none
              | some (.err e w4) => some (.err e w4)
              | some (.ok d w4) =>
                calculate n { w4 with cout := w4.cout ++ [Out.val d, Out.endl] }

/-! ## Vocabulary of the statements -/

/-- An integer literal: a non-empty string of decimal digits. -/
def isIntLit (ds : List Char) : Bool := !ds.isEmpty && ds.all Char.isDigit

/-- The text `ds` is an integer literal (a non-empty string of decimal digits) whose
value `a` fits the `int` in which `primary()` stores a number. -/
def IntLiteral (ds : List Char) (a : Nat) : Prop :=
  isIntLit ds = true ∧ decVal ds = a ∧ a < 2147483648

instance instDecidableIntLiteral (ds : List Char) (a : Nat) : Decidable (IntLiteral ds a) := by
  unfold IntLiteral; infer_instance

/-- The text `e1 ; e2 ; ... ek ; q` followed by `rest`, for the statements `stmts`
(each a text with the value it denotes). -/
def session {D : Type} : List (List Char × D) → List Char → List Char
  | [], rest => 'q' :: rest
  | p :: ps, rest => p.1 ++ ';' :: session ps rest

/-- What `calculate()` writes for the statements `stmts`: for each one the prompt, the
result marker, the value and the end of line. -/
def sessionOutput {D : Type} : List (List Char × D) → List (Out D)
  | [] => []
  | p :: ps => [Out.chr prompt, Out.chr result, Out.val p.2, Out.endl] ++ sessionOutput ps

/-- The text `es` is a well-formed expression of value `v`: followed by the print token,
its first token is read by `get()`, and `expression()`, started as `calculate()` starts
it (this first token put back), returns `v` with an amount `N` of fuel or more, having
read `es` and put the print token back. -/
def Statement {D : Type} [DoubleOps D] (es : List Char) (v : D) (N : Nat) : Prop :=
  ∀ (b : Token D) (rest : List Char) (o o1 : List (Out D)),
    ∃ (t : Token D) (i : Istream),
      Token_stream.get ⟨⟨false, b⟩, ⟨es ++ ';' :: rest, false⟩, o⟩ =
        .ok t ⟨⟨false, b⟩, i, o⟩ ∧
      ∀ n, expression (n + N) ⟨⟨true, t⟩, i, o1⟩ =
        some (.ok v ⟨⟨true, Token.ofChar ';'⟩, ⟨rest, false⟩, o1⟩)

/-- The number of characters that can still be read (none once `cin` has failed). -/
def Istream.size (i : Istream) : Nat := if i.failed then 0 else i.chars.length

/-- A bound on the number of tokens that remain: the characters that can still be read,
plus one for a buffered token. -/
def World.size {D : Type} (w : World D) : Nat := (if w.ts.full then 1 else 0) + w.cin.size

/-! ## The rational instance is lawful -/

theorem truncQ_natCast (n : Nat) : truncQ (n : ℚ) = (n : Int) := by
  unfold truncQ
  have h : (0 : ℚ) ≤ (n : ℚ) := Nat.cast_nonneg n
  rw [if_pos h]
  exact Int.floor_natCast n

instance instLawfulRat : LawfulDoubleOps ℚ where
  toInt_ofDecimal n hn := by
    show toIntQ ((n : ℚ) * (10 : ℚ) ^ (0 : Int)) = (n : Int)
    rw [zpow_zero, mul_one]
    unfold toIntQ
    simp only [truncQ_natCast]
    rw [if_pos]
    constructor <;> omega
  neg_neg d := by
    show - - d = d
    exact neg_neg d
  isZero_ofInt k _ _ := by
    show decide ((k : ℚ) = 0) = true ↔ k = 0
    simp

/-! ## The lexer on symbols and integer literals -/

theorem isspace_of_isDigit {c : Char} (h : c.isDigit = true) : isspace c = false := by
  cases hs : isspace c with
  | false => rfl
  | true =>
    simp only [isspace, Bool.or_eq_true, beq_iff_eq] at hs
    rcases hs with ((((h1|h1)|h1)|h1)|h1)|h1 <;> subst h1 <;> exact absurd h (by decide)

theorem isSymbol_cases {c : Char} (h : isSymbol c = true) :
    c = ';' ∨ c = 'q' ∨ c = '(' ∨ c = ')' ∨ c = '+' ∨ c = '-' ∨ c = '*' ∨ c = '/' ∨
    c = '{' ∨ c = '}' ∨ c = '!' ∨ c = '%' := by
  simpa [isSymbol, print, quit, or_assoc] using h

theorem isSymbol_of_isDigit {c : Char} (h : c.isDigit = true) : isSymbol c = false := by
  cases hs : isSymbol c with
  | false => rfl
  | true =>
    rcases isSymbol_cases hs with h1|h1|h1|h1|h1|h1|h1|h1|h1|h1|h1|h1 <;> subst h1 <;>
      exact absurd h (by decide)

theorem isspace_of_isSymbol {c : Char} (h : isSymbol c = true) : isspace c = false := by
  rcases isSymbol_cases h with h1|h1|h1|h1|h1|h1|h1|h1|h1|h1|h1|h1 <;> subst h1 <;> decide

theorem isDigit_of_isSymbol {c : Char} (h : isSymbol c = true) : c.isDigit = false := by
  rcases isSymbol_cases h with h1|h1|h1|h1|h1|h1|h1|h1|h1|h1|h1|h1 <;> subst h1 <;> decide

theorem takeDigits_append {ds : List Char} (hd : ∀ d ∈ ds, d.isDigit = true) (c : Char)
    (hc : c.isDigit = false) (cs : List Char) :
    takeDigits (ds ++ c :: cs) = (ds, c :: cs) := by
  induction ds with
  | nil => simp [takeDigits, hc]
  | cons d ds ih =>
    have h1 : d.isDigit = true := hd d (List.mem_cons_self _ _)
    have h2 := ih (fun x hx => hd x (List.mem_cons_of_mem _ hx))
    simp [takeDigits, h1, h2]

theorem get_buffered {D : Type} [DoubleOps D] (t : Token D) (i : Istream) (o : List (Out D)) :
    Token_stream.get ⟨⟨true, t⟩, i, o⟩ = .ok t ⟨⟨false, t⟩, i, o⟩ := rfl

theorem get_symbol {D : Type} [DoubleOps D] (b : Token D) (c : Char) (cs : List Char)
    (o : List (Out D)) (h : isSymbol c = true) :
    Token_stream.get ⟨⟨false, b⟩, ⟨c :: cs, false⟩, o⟩ =
      .ok (Token.ofChar c) ⟨⟨false, b⟩, ⟨cs, false⟩, o⟩ := by
  simp [Token_stream.get, Istream.readChar, skipws, isspace_of_isSymbol h, h]

theorem readDouble_intLit {D : Type} [DoubleOps D] (ds : List Char) (c : Char)
    (cs : List Char) (hds : isIntLit ds = true) (hc : isSymbol c = true) :
    (Istream.readDouble ⟨ds ++ c :: cs, false⟩ : D × Istream) =
      (DoubleOps.ofDecimal (decVal ds) 0, ⟨c :: cs, false⟩) := by
  simp only [isIntLit, Bool.and_eq_true, Bool.not_eq_true', List.all_eq_true] at hds
  have hne : ds ≠ [] := by
    intro h; rw [h] at hds; simp at hds
  have htd := takeDigits_append hds.2 c (isDigit_of_isSymbol hc) cs
  have hfr : takeFraction (c :: cs) = ([], c :: cs) := by
    rcases isSymbol_cases hc with h1|h1|h1|h1|h1|h1|h1|h1|h1|h1|h1|h1 <;> subst h1 <;> rfl
  have hex : takeExponent (c :: cs) = none := by
    rcases isSymbol_cases hc with h1|h1|h1|h1|h1|h1|h1|h1|h1|h1|h1|h1 <;> subst h1 <;> rfl
  simp [Istream.readDouble, htd, hfr, hex, hne]

theorem get_intLit {D : Type} [DoubleOps D] (b : Token D) (ds : List Char) (c : Char)
    (cs : List Char) (o : List (Out D)) (hds : isIntLit ds = true) (hc : isSymbol c = true) :
    Token_stream.get ⟨⟨false, b⟩, ⟨ds ++ c :: cs, false⟩, o⟩ =
      .ok ⟨Token.number, DoubleOps.ofDecimal (decVal ds) 0⟩
        ⟨⟨false, b⟩, ⟨c :: cs, false⟩, o⟩ := by
  have hds2 := hds
  simp only [isIntLit, Bool.and_eq_true, Bool.not_eq_true', List.all_eq_true] at hds2
  obtain ⟨d, ds1, rfl⟩ : ∃ d ds1, ds = d :: ds1 := by
    cases ds with
    | nil => simp at hds2
    | cons d ds1 => exact ⟨d, ds1, rfl⟩
  have hd : d.isDigit = true := hds2.2 d (List.mem_cons_self _ _)
  have hrd := readDouble_intLit (D := D) (d :: ds1) c cs hds hc
  simp only [List.cons_append] at hrd
  simp [Token_stream.get, Istream.readChar, skipws, isspace_of_isDigit hd,
    isSymbol_of_isDigit hd, hd, Istream.putback, hrd]


/-! ## One step of the grammar functions -/

theorem putback_empty {D : Type} (t b : Token D) (i : Istream) (o : List (Out D)) :
    Token_stream.putback t ⟨⟨false, b⟩, i, o⟩ = .ok () ⟨⟨true, t⟩, i, o⟩ := rfl

theorem kind_ofChar {D : Type} [DoubleOps D] (c : Char) :
    (Token.ofChar c : Token D).kind = c := rfl

/-- `primary()` on a group: the opener is read, the expression evaluated and the closer
read. -/
theorem primary_group {D : Type} [DoubleOps D] (n : Nat) (w w1 w2 w3 : World D)
    (t t2 : Token D) (d : D) (hg : Token_stream.get w = .ok t w1)
    (he : expression n w1 = some (.ok d w2)) (hg2 : Token_stream.get w2 = .ok t2 w3) :
    (t.kind = '(' → primary (n + 1) w =
      if t2.kind = ')' then some (.ok d w3) else some (.err .rparenExpected w3)) ∧
    (t.kind = '{' → primary (n + 1) w =
      if t2.kind = '}' then some (.ok d w3) else some (.err .rbraceExpected w3)) := by
  constructor
  · intro hk
    simp only [primary, hg, hk, he, hg2, if_true]
    by_cases h : t2.kind = ')' <;> simp [h]
  · intro hk
    have h1 : ¬ ('{' = '(') := by decide
    simp only [primary, hg, hk, he, hg2, if_true, h1, if_false]
    by_cases h : t2.kind = '}' <;> simp [h]

theorem factLoop_small (a : Nat) (h : a ≤ 12) : factLoop a 1 = (Nat.factorial a : Int) := by
  interval_cases a <;> decide

/-- `primary()` on a number token followed by `!`. -/
theorem primary_number_bang {D : Type} [DoubleOps D] (n : Nat) (w w1 w2 : World D)
    (t t2 : Token D) (hg : Token_stream.get w = .ok t w1) (hk : t.kind = Token.number)
    (hg2 : Token_stream.get w1 = .ok t2 w2) (hb : t2.kind = '!') :
    primary (n + 1) w =
      if DoubleOps.toInt t.value < 0 then some (.err .negFactorial w2)
      else some (.ok (DoubleOps.ofInt (factLoop (DoubleOps.toInt t.value).toNat 1)) w2) := by
  have h8 : Token.number ≠ '(' ∧ Token.number ≠ '{' := by decide
  simp [primary, hg, hk, hg2, hb, h8.1, h8.2]

/-- `primary()` on an integer literal followed by `!`. -/
theorem primary_intLit_bang {D : Type} [DoubleOps D] [LawfulDoubleOps D] (n : Nat)
    (b : Token D) (ds : List Char) (a : Nat) (cs : List Char) (o : List (Out D))
    (hds : IntLiteral ds a) :
    primary (n + 1) ⟨⟨false, b⟩, ⟨ds ++ '!' :: cs, false⟩, o⟩ =
      some (.ok (DoubleOps.ofInt (factLoop a 1)) ⟨⟨false, b⟩, ⟨cs, false⟩, o⟩) := by
  obtain ⟨h1, rfl, h3⟩ := hds
  have h := primary_number_bang n _ _ _ _ _ (get_intLit b ds '!' cs o h1 (by decide)) rfl
    (get_symbol b '!' cs o (by decide)) rfl
  rw [h]
  simp [LawfulDoubleOps.toInt_ofDecimal _ h3]

/-! ## The buffer is empty at every `putback()` -/

theorem get_err_ne {D : Type} [DoubleOps D] {w w1 : World D} {e : Err}
    (h : Token_stream.get w = .err e w1) : e ≠ .putbackFull := by
  unfold Token_stream.get at h
  split at h
  · cases h
  · split at h
    · cases h; decide
    · split at h
      · cases h
      · split at h
        · cases h
        · cases h; decide

theorem get_ok_empty {D : Type} [DoubleOps D] {w w1 : World D} {t : Token D}
    (hw : Token_stream.get w = .ok t w1) : w1.ts.full = false := by
  unfold Token_stream.get at hw
  split at hw
  · cases hw; rfl
  · rename_i hf
    split at hw
    · cases hw
    · split at hw
      · cases hw; simpa using hf
      · split at hw
        · cases hw; simpa using hf
        · cases hw

theorem putback_empty_ne_err {D : Type} {t : Token D} {w w1 : World D} {e : Err}
    (hw : w.ts.full = false) (h : Token_stream.putback t w = .err e w1) : False := by
  simp [Token_stream.putback, hw] at h

theorem putback_of_empty {D : Type} (t : Token D) {w : World D} (hw : w.ts.full = false) :
    Token_stream.putback t w = .ok () { w with ts := ⟨true, t⟩ } := by
  simp [Token_stream.putback, hw]

theorem putback_after_get {D : Type} [DoubleOps D] {t t2 : Token D} {w w1 w2 : World D}
    {e : Err} (hg : Token_stream.get w = .ok t w1)
    (h : Token_stream.putback t2 w1 = .err e w2) : False :=
  putback_empty_ne_err (get_ok_empty hg) h

theorem grammar_no_putback_error {D : Type} [DoubleOps D] (n : Nat) :
    (∀ (w w9 : World D) (e : Err), primary n w = some (.err e w9) → e ≠ .putbackFull) ∧
    (∀ (left : D) (t : Token D) (w w9 : World D) (e : Err), w.ts.full = false →
      termLoop n left t w = some (.err e w9) → e ≠ .putbackFull) ∧
    (∀ (w w9 : World D) (e : Err), term n w = some (.err e w9) → e ≠ .putbackFull) ∧
    (∀ (left : D) (t : Token D) (w w9 : World D) (e : Err), w.ts.full = false →
      expressionLoop n left t w = some (.err e w9) → e ≠ .putbackFull) ∧
    (∀ (w w9 : World D) (e : Err), expression n w = some (.err e w9) → e ≠ .putbackFull) := by
  induction n with
  | zero => simp [primary, termLoop, term, expressionLoop, expression]
  | succ n ih =>
    obtain ⟨ihp, ihtl, iht, ihel, ihe⟩ := ih
    refine ⟨?_, ?_, ?_, ?_, ?_⟩
    · intro w w9 e h
      simp only [primary] at h
      repeat' split at h
      all_goals first
        | (cases h; done)
        | exact ihp _ _ _ h
        | exact (putback_after_get ‹_› ‹_›).elim
        | (simp only [Option.some.injEq, Res.err.injEq] at h
           obtain ⟨rfl, rfl⟩ := h
           first
             | exact get_err_ne ‹_›
             | exact ihe _ _ _ ‹_›
             | exact ihp _ _ _ ‹_›
             | decide)
    · intro left t w w9 e hw h
      simp only [termLoop] at h
      repeat' split at h
      all_goals first
        | (cases h; done)
        | exact ihtl _ _ _ _ _ (get_ok_empty ‹_›) h
        | exact (putback_empty_ne_err hw ‹_›).elim
        | (simp only [Option.some.injEq, Res.err.injEq] at h
           obtain ⟨rfl, rfl⟩ := h
           first
             | exact get_err_ne ‹_›
             | exact ihp _ _ _ ‹_›
             | decide)
    · intro w w9 e h
      simp only [term] at h
      repeat' split at h
      all_goals first
        | (cases h; done)
        | exact ihtl _ _ _ _ _ (get_ok_empty ‹_›) h
        | (simp only [Option.some.injEq, Res.err.injEq] at h
           obtain ⟨rfl, rfl⟩ := h
           first
             | exact get_err_ne ‹_›
             | exact ihp _ _ _ ‹_›)
    · intro left t w w9 e hw h
      simp only [expressionLoop] at h
      repeat' split at h
      all_goals first
        | (cases h; done)
        | exact ihel _ _ _ _ _ (get_ok_empty ‹_›) h
        | exact (putback_empty_ne_err hw ‹_›).elim
        | (simp only [Option.some.injEq, Res.err.injEq] at h
           obtain ⟨rfl, rfl⟩ := h
           first
             | exact get_err_ne ‹_›
             | exact iht _ _ _ ‹_›)
    · intro w w9 e h
      simp only [expression] at h
      repeat' split at h
      all_goals first
        | (cases h; done)
        | exact ihel _ _ _ _ _ (get_ok_empty ‹_›) h
        | (simp only [Option.some.injEq, Res.err.injEq] at h
           obtain ⟨rfl, rfl⟩ := h
           first
             | exact get_err_ne ‹_›
             | exact iht _ _ _ ‹_›)

theorem skipPrints_err_ne {D : Type} [DoubleOps D] (n : Nat) (t : Token D)
    (w w9 : World D) (e : Err) (h : skipPrints n t w = some (.err e w9)) :
    e ≠ .putbackFull := by
  induction n generalizing t w with
  | zero => simp [skipPrints] at h
  | succ n ih =>
    simp only [skipPrints] at h
    repeat' split at h
    all_goals first
      | (cases h; done)
      | exact ih _ _ h
      | (simp only [Option.some.injEq, Res.err.injEq] at h
         obtain ⟨rfl, rfl⟩ := h
         exact get_err_ne ‹_›)

theorem skipPrints_ok_empty {D : Type} [DoubleOps D] (n : Nat) (t t2 : Token D)
    (w w2 : World D) (hw : w.ts.full = false) (h : skipPrints n t w = some (.ok t2 w2)) :
    w2.ts.full = false := by
  induction n generalizing t w with
  | zero => simp [skipPrints] at h
  | succ n ih =>
    simp only [skipPrints] at h
    repeat' split at h
    all_goals first
      | (cases h; done)
      | exact ih _ _ (get_ok_empty ‹_›) h
      | (simp only [Option.some.injEq, Res.ok.injEq] at h
         obtain ⟨rfl, rfl⟩ := h
         exact hw)

theorem calculate_no_putback_error {D : Type} [DoubleOps D] (n : Nat) (w w9 : World D)
    (e : Err) (h : calculate n w = some (.err e w9)) : e ≠ .putbackFull := by
  induction n generalizing w with
  | zero => simp [calculate] at h
  | succ n ih =>
    simp only [calculate] at h
    repeat' split at h
    all_goals first
      | (cases h; done)
      | exact ih _ h
      | exact (putback_empty_ne_err (skipPrints_ok_empty _ _ _ _ _ (get_ok_empty ‹_›) ‹_›)
          ‹_›).elim
      | (simp only [Option.some.injEq, Res.err.injEq] at h
         obtain ⟨rfl, rfl⟩ := h
         first
           | exact get_err_ne ‹_›
           | exact skipPrints_err_ne _ _ _ _ _ ‹_›
           | exact (grammar_no_putback_error n).2.2.2.2 _ _ _ ‹_›)

/-- `get()` on an empty buffer when `c` is the next character that is no whitespace. -/
theorem get_next_char {D : Type} [DoubleOps D] (w : World D) (c : Char) (cs : List Char)
    (hw : w.ts.full = false) (hf : w.cin.failed = false)
    (hc : skipws w.cin.chars = c :: cs) :
    Token_stream.get w =
      if isSymbol c = true then .ok (Token.ofChar c) { w with cin := ⟨cs, false⟩ }
      else if c = '.' ∨ c.isDigit = true then
        .ok ⟨Token.number, ((Istream.putback ⟨cs, false⟩ c).readDouble : D × Istream).1⟩
          { w with cin := ((Istream.putback ⟨cs, false⟩ c).readDouble : D × Istream).2 }
      else .err .badToken { w with cin := ⟨cs, false⟩ } := by
  simp only [Token_stream.get, hw, Istream.readChar, hf, hc]
  simp

/-! ## The driver on a session -/

theorem primary_other {D : Type} [DoubleOps D] (n : Nat) (w w1 : World D) (t : Token D)
    (hg : Token_stream.get w = .ok t w1)
    (hk : t.kind = print ∨ t.kind = quit) :
    primary (n + 1) w = some (.err .primaryExpected w1) := by
  have a : t.kind ≠ '(' ∧ t.kind ≠ '{' ∧ t.kind ≠ Token.number ∧ t.kind ≠ '-' ∧
      t.kind ≠ '+' := by
    rcases hk with h | h <;> rw [h] <;> decide
  simp only [primary, hg, a.1, a.2.1, a.2.2.1, a.2.2.2.1, a.2.2.2.2, if_false]

theorem expression_ok_first {D : Type} [DoubleOps D] (m : Nat) (t : Token D) (i : Istream)
    (o : List (Out D)) (v : D) (w1 : World D)
    (h : expression m ⟨⟨true, t⟩, i, o⟩ = some (.ok v w1)) :
    t.kind ≠ print ∧ t.kind ≠ quit := by
  by_contra hc
  have hk : t.kind = print ∨ t.kind = quit := by
    by_cases h1 : t.kind = print
    · exact Or.inl h1
    · by_cases h2 : t.kind = quit
      · exact Or.inr h2
      · exact absurd ⟨h1, h2⟩ hc
  match m with
  | 0 => simp [expression] at h
  | 1 => simp [expression, term] at h
  | 2 => simp [expression, term, primary] at h
  | k + 3 =>
    have hp := primary_other k _ _ t (get_buffered t i o) hk
    simp [expression, term, hp] at h

/-- `skipPrints` stops at a token that is no print token. -/
theorem skipPrints_stop {D : Type} [DoubleOps D] (n : Nat) (t : Token D) (w : World D)
    (h : t.kind ≠ print) : skipPrints (n + 1) t w = some (.ok t w) := by
  simp [skipPrints, h]

/-- The first token that `calculate()` finds for a statement: read directly, or after
the print token left in the buffer by the statement before. -/
theorem first_token {D : Type} [DoubleOps D] (m : Nat) (f : Bool) (b t : Token D)
    (c : List Char) (i : Istream) (o : List (Out D))
    (hf : f = true → b.kind = print)
    (hg : Token_stream.get ⟨⟨false, b⟩, ⟨c, false⟩, o⟩ = .ok t ⟨⟨false, b⟩, i, o⟩)
    (hk : t.kind ≠ print) :
    ∃ (t0 : Token D) (w1 : World D),
      Token_stream.get ⟨⟨f, b⟩, ⟨c, false⟩, o⟩ = .ok t0 w1 ∧
      skipPrints (m + 2) t0 w1 = some (.ok t ⟨⟨false, b⟩, i, o⟩) := by
  cases f with
  | false => exact ⟨t, _, hg, skipPrints_stop _ t _ hk⟩
  | true =>
    refine ⟨b, ⟨⟨false, b⟩, ⟨c, false⟩, o⟩, get_buffered b _ o, ?_⟩
    have hb := hf rfl
    simp only [skipPrints, hb, hg, if_true]
    exact skipPrints_stop m t _ hk

/-- One turn of the loop of `calculate()` that ends the session. -/
theorem calculate_quit {D : Type} [DoubleOps D] (m : Nat) (w w1 w2 : World D)
    (t0 t : Token D) (hf : w.cin.failed = false)
    (hg : Token_stream.get { w with cout := w.cout ++ [Out.chr prompt] } = .ok t0 w1)
    (hs : skipPrints m t0 w1 = some (.ok t w2)) (hq : t.kind = quit) :
    calculate (m + 1) w = some (.ok () w2) := by
  simp only [calculate, hf, hg, hs, hq, if_true]
  simp

/-- One turn of the loop of `calculate()` that evaluates a statement. -/
theorem calculate_step {D : Type} [DoubleOps D] (m : Nat) (w w1 w4 : World D)
    (t0 t b : Token D) (i : Istream) (o : List (Out D)) (v : D)
    (hf : w.cin.failed = false)
    (hg : Token_stream.get { w with cout := w.cout ++ [Out.chr prompt] } = .ok t0 w1)
    (hs : skipPrints m t0 w1 = some (.ok t ⟨⟨false, b⟩, i, o⟩)) (hq : t.kind ≠ quit)
    (he : expression m ⟨⟨true, t⟩, i, o ++ [Out.chr result]⟩ = some (.ok v w4)) :
    calculate (m + 1) w = calculate m { w4 with cout := w4.cout ++ [Out.val v, Out.endl] } := by
  simp only [calculate, hf, hg, hs, hq, if_false, putback_empty, he]
  simp

theorem calculate_session {D : Type} [DoubleOps D] (N : Nat) (rest : List Char)
    (stmts : List (List Char × D)) :
    ∀ (n : Nat) (f : Bool) (b : Token D) (o : List (Out D)),
      (f = true → b.kind = print) → (∀ p ∈ stmts, Statement p.1 p.2 N) →
      ∃ b1 : Token D,
        calculate (n + N + stmts.length + 3) ⟨⟨f, b⟩, ⟨session stmts rest, false⟩, o⟩ =
          some (.ok () ⟨⟨false, b1⟩, ⟨rest, false⟩,
            o ++ sessionOutput stmts ++ [Out.chr prompt]⟩) := by
  induction stmts with
  | nil =>
    intro n f b o hf _
    have hq : Token_stream.get ⟨⟨false, b⟩, ⟨'q' :: rest, false⟩, o ++ [Out.chr prompt]⟩ =
        .ok (Token.ofChar 'q') ⟨⟨false, b⟩, ⟨rest, false⟩, o ++ [Out.chr prompt]⟩ :=
      get_symbol b 'q' rest _ (by decide)
    obtain ⟨t0, w1, h1, h2⟩ := first_token (n + N) f b (Token.ofChar 'q') ('q' :: rest)
      ⟨rest, false⟩ (o ++ [Out.chr prompt]) hf hq
      (by rw [kind_ofChar]; decide)
    refine ⟨b, ?_⟩
    have h := calculate_quit (n + N + 2) ⟨⟨f, b⟩, ⟨session ([] : List (List Char × D)) rest,
      false⟩, o⟩ w1 _ t0 _ rfl h1 h2 rfl
    simpa [sessionOutput] using h
  | cons p ps ih =>
    intro n f b o hf hst
    obtain ⟨t, i, hg, he⟩ := hst p (List.mem_cons_self _ _) b (session ps rest)
      (o ++ [Out.chr prompt]) (o ++ [Out.chr prompt] ++ [Out.chr result])
    have hk := expression_ok_first _ t i _ _ _ (he 0)
    obtain ⟨t0, w1, h1, h2⟩ := first_token (n + N + ps.length + 1) f b t
      (p.1 ++ ';' :: session ps rest) i (o ++ [Out.chr prompt]) hf hg hk.1
    obtain ⟨b1, hrec⟩ := ih n true (Token.ofChar ';')
      (o ++ [Out.chr prompt] ++ [Out.chr result] ++ [Out.val p.2, Out.endl])
      (fun _ => rfl) (fun q hq => hst q (List.mem_cons_of_mem _ hq))
    refine ⟨b1, ?_⟩
    have he2 := he (n + ps.length + 3)
    have e3 : n + ps.length + 3 + N = n + N + ps.length + 1 + 2 := by omega
    rw [e3] at he2
    have h := calculate_step (n + N + ps.length + 1 + 2)
      ⟨⟨f, b⟩, ⟨session (p :: ps) rest, false⟩, o⟩ w1 _ t0 t b i _ p.2 rfl h1 h2 hk.2 he2
    have e : n + N + (p :: ps).length + 3 = (n + N + ps.length + 1 + 2) + 1 := by
      simp only [List.length_cons]
      omega
    rw [e, h]
    have e4 : n + N + ps.length + 1 + 2 = n + N + ps.length + 3 := rfl
    rw [e4, hrec]
    simp [sessionOutput]

/-- An integer literal is a statement of its value. -/
theorem statement_intLit {D : Type} [DoubleOps D] [LawfulDoubleOps D] (ds : List Char)
    (a : Nat) (h : IntLiteral ds a) : Statement ds (DoubleOps.ofInt (a : Int) : D) 3 := by
  intro b rest o o1
  refine ⟨⟨Token.number, DoubleOps.ofDecimal (decVal ds) 0⟩, ⟨';' :: rest, false⟩,
    get_intLit b ds ';' rest o h.1 (by decide), ?_⟩
  intro n
  obtain ⟨h1, rfl, h3⟩ := h
  have h8 : Token.number ≠ '(' ∧ Token.number ≠ '{' := by decide
  have g := fun bb => get_symbol (D := D) bb ';' rest o1 (by decide)
  simp [expression, term, termLoop, expressionLoop, primary, get_buffered, g, h8.1, h8.2,
    kind_ofChar, putback_empty, LawfulDoubleOps.toInt_ofDecimal _ h3]

/-- `skipPrints` on `j` further print tokens followed by `q`. -/
theorem skipPrints_prints {D : Type} [DoubleOps D] (j : Nat) :
    ∀ (n : Nat) (b : Token D) (rest : List Char) (o : List (Out D)),
      skipPrints (n + j + 2) (Token.ofChar ';')
          ⟨⟨false, b⟩, ⟨List.replicate j ';' ++ 'q' :: rest, false⟩, o⟩ =
        some (.ok (Token.ofChar 'q') ⟨⟨false, b⟩, ⟨rest, false⟩, o⟩) := by
  induction j with
  | zero =>
    intro n b rest o
    have g := get_symbol b 'q' rest o (by decide)
    simp only [List.replicate, List.nil_append] at *
    simp [skipPrints, kind_ofChar, print, g]
  | succ j ih =>
    intro n b rest o
    have g := get_symbol b ';' (List.replicate j ';' ++ 'q' :: rest) o (by decide)
    have e : n + (j + 1) + 2 = (n + j + 2) + 1 := by omega
    rw [e]
    simp only [skipPrints, kind_ofChar, print, if_true, List.replicate, List.cons_append, g]
    exact ih n b rest o

/-! ## Signs, truncation and `fmod` -/

/-- `primary()` on a sign followed by a primary. -/
theorem primary_minus {D : Type} [DoubleOps D] (n : Nat) (w w1 w2 : World D) (t : Token D)
    (v : D) (hg : Token_stream.get w = .ok t w1) (hk : t.kind = '-')
    (hp : primary n w1 = some (.ok v w2)) :
    primary (n + 1) w = some (.ok (DoubleOps.neg v) w2) := by
  have c1 : ¬ ('-' = '(') ∧ ¬ ('-' = '{') ∧ ¬ ('-' = Token.number) := by decide
  simp only [primary, hg, hk, hp, c1.1, c1.2.1, c1.2.2, if_false, if_true]

theorem toIntQ_small_negative (v : ℚ) (h1 : -1 < v) (h2 : v < 0) : toIntQ v = 0 := by
  have hc : ⌈v⌉ = 0 := by
    rw [Int.ceil_eq_iff]
    constructor
    · simpa using h1
    · simpa using h2.le
  have hn : ¬ (0 ≤ v) := not_le.mpr h2
  simp [toIntQ, truncQ, hn, hc]

theorem truncQ_le_of_nonneg (q : ℚ) (h : 0 ≤ q) : 0 ≤ q - (truncQ q : ℚ) := by
  simp only [truncQ, h, if_true]
  linarith [Int.floor_le q]

theorem truncQ_ge_of_nonpos (q : ℚ) (h : q ≤ 0) : q - (truncQ q : ℚ) ≤ 0 := by
  by_cases h0 : 0 ≤ q
  · have : q = 0 := le_antisymm h h0
    subst this
    simp [truncQ]
  · simp only [truncQ, h0, if_false]
    linarith [Int.le_ceil q]

theorem fmodQ_eq (a b : ℚ) (hb : b ≠ 0) : fmodQ a b = b * (a / b - (truncQ (a / b) : ℚ)) := by
  unfold fmodQ
  field_simp

theorem fmodQ_nonneg (a b : ℚ) (hb : b ≠ 0) (ha : 0 ≤ a) : 0 ≤ fmodQ a b := by
  rw [fmodQ_eq a b hb]
  rcases lt_or_gt_of_ne hb with h | h
  · have hq : a / b ≤ 0 := div_nonpos_of_nonneg_of_nonpos ha h.le
    exact mul_nonneg_of_nonpos_of_nonpos h.le (truncQ_ge_of_nonpos _ hq)
  · have hq : 0 ≤ a / b := div_nonneg ha h.le
    exact mul_nonneg h.le (truncQ_le_of_nonneg _ hq)

theorem fmodQ_nonpos (a b : ℚ) (hb : b ≠ 0) (ha : a ≤ 0) : fmodQ a b ≤ 0 := by
  rw [fmodQ_eq a b hb]
  rcases lt_or_gt_of_ne hb with h | h
  · have hq : 0 ≤ a / b := div_nonneg_of_nonpos ha h.le
    exact mul_nonpos_of_nonpos_of_nonneg h.le (truncQ_le_of_nonneg _ hq)
  · have hq : a / b ≤ 0 := div_nonpos_of_nonpos_of_nonneg ha h.le
    exact mul_nonpos_of_nonneg_of_nonpos h.le (truncQ_ge_of_nonpos _ hq)

/-! ## Termination -/

theorem skipws_length (l : List Char) : (skipws l).length ≤ l.length := by
  induction l with
  | nil => simp [skipws]
  | cons c cs ih =>
    simp only [skipws]
    split
    · simp only [List.length_cons]; omega
    · simp

theorem takeDigits_length (l : List Char) :
    (takeDigits l).1.length + (takeDigits l).2.length = l.length := by
  induction l with
  | nil => simp [takeDigits]
  | cons c cs ih =>
    simp only [takeDigits]
    split
    · simp only [List.length_cons]; omega
    · simp

theorem takeFraction_length (l : List Char) :
    (takeFraction l).1.length + (takeFraction l).2.length ≤ l.length := by
  unfold takeFraction
  split
  · rename_i cs
    have := takeDigits_length cs
    simp only [List.length_cons]; omega
  · simp

theorem takeExponent_length (l : List Char) (s : Bool) (ep rest : List Char)
    (h : takeExponent l = some (s, ep, rest)) : ep.length + rest.length + 1 ≤ l.length := by
  cases l with
  | nil => simp [takeExponent] at h
  | cons c cs =>
    simp only [takeExponent] at h
    split at h
    · split at h
      · rename_i r
        simp only [Option.some.injEq, Prod.mk.injEq] at h
        have hl := takeDigits_length r
        rw [h.2] at hl
        simp only [List.length_cons] at hl ⊢
        omega
      · rename_i r
        simp only [Option.some.injEq, Prod.mk.injEq] at h
        have hl := takeDigits_length r
        rw [h.2] at hl
        simp only [List.length_cons] at hl ⊢
        omega
      · simp only [Option.some.injEq, Prod.mk.injEq] at h
        have hl := takeDigits_length cs
        rw [h.2] at hl
        simp only [List.length_cons] at hl ⊢
        omega
    · cases h

theorem readDouble_size {D : Type} [DoubleOps D] (i : Istream) (hne : i.chars ≠ []) :
    ((i.readDouble : D × Istream).2).size + 1 ≤ i.chars.length := by
  have hpos : 1 ≤ i.chars.length := by
    cases h : i.chars with
    | nil => exact absurd h hne
    | cons c cs => simp
  have h1 := takeDigits_length i.chars
  have h2 := takeFraction_length (takeDigits i.chars).2
  unfold Istream.readDouble
  simp only
  split
  · split
    · simp [Istream.size]; omega
    · rename_i hm
      have : 1 ≤ ((takeDigits i.chars).1 ++ (takeFraction (takeDigits i.chars).2).1).length := by
        cases hl : (takeDigits i.chars).1 ++ (takeFraction (takeDigits i.chars).2).1 with
        | nil => exact absurd hl hm
        | cons _ _ => simp
      rw [List.length_append] at this
      simp only [Istream.size]
      split <;> omega
  · rename_i s ep rest he
    have h3 := takeExponent_length _ s ep rest he
    split
    · simp [Istream.size]; omega
    · simp only [Istream.size]
      split <;> omega

theorem get_size {D : Type} [DoubleOps D] {w w1 : World D} {t : Token D}
    (h : Token_stream.get w = .ok t w1) : w1.size + 1 ≤ w.size := by
  cases hf : w.ts.full with
  | true =>
    simp only [Token_stream.get, hf, if_true] at h
    cases h
    simp only [World.size, hf]
    simp
    omega
  | false =>
    cases hfail : w.cin.failed with
    | true => simp [Token_stream.get, hf, Istream.readChar, hfail] at h
    | false =>
      cases hs : skipws w.cin.chars with
      | nil => simp [Token_stream.get, hf, Istream.readChar, hfail, hs] at h
      | cons c cs =>
        rw [get_next_char w c cs hf hfail hs] at h
        have hl := skipws_length w.cin.chars
        rw [hs] at hl
        simp only [List.length_cons] at hl
        split_ifs at h
        · cases h
          simp only [World.size, Istream.size, hf, hfail]
          simp
          omega
        · cases h
          have hr := readDouble_size (D := D) (Istream.putback ⟨cs, false⟩ c)
            (by simp [Istream.putback])
          simp only [Istream.putback, List.length_cons] at hr
          simp only [World.size, Istream.size, hf, hfail, Istream.putback] at hr ⊢
          simp at hr ⊢
          omega

theorem putback_size {D : Type} {w w1 : World D} {t : Token D}
    (h : Token_stream.putback t w = .ok () w1) : w1.size = w.size + 1 := by
  unfold Token_stream.putback at h
  split at h
  · cases h
  · rename_i hf
    cases h
    simp [World.size, hf]; omega

/-- The grammar functions terminate: with fuel of three units for each remaining token
(and up to three more) each returns an outcome, and a returned value comes with at
least one token consumed (for the loops: at most the token handed in put back). -/
theorem grammar_terminates {D : Type} [DoubleOps D] (n : Nat) :
    (∀ w : World D, 3 * w.size + 1 ≤ n →
      ∃ r, primary n w = some r ∧ ∀ v w1, r = .ok v w1 → w1.size + 1 ≤ w.size) ∧
    (∀ (left : D) (t : Token D) (w : World D), 3 * w.size + 2 ≤ n →
      ∃ r, termLoop n left t w = some r ∧ ∀ v w1, r = .ok v w1 → w1.size ≤ w.size + 1) ∧
    (∀ w : World D, 3 * w.size + 2 ≤ n →
      ∃ r, term n w = some r ∧ ∀ v w1, r = .ok v w1 → w1.size + 1 ≤ w.size) ∧
    (∀ (left : D) (t : Token D) (w : World D), 3 * w.size + 3 ≤ n →
      ∃ r, expressionLoop n left t w = some r ∧
        ∀ v w1, r = .ok v w1 → w1.size ≤ w.size + 1) ∧
    (∀ w : World D, 3 * w.size + 3 ≤ n →
      ∃ r, expression n w = some r ∧ ∀ v w1, r = .ok v w1 → w1.size + 1 ≤ w.size) := by
  induction n with
  | zero =>
    refine ⟨?_, ?_, ?_, ?_, ?_⟩ <;> intros <;> omega
  | succ n ih =>
    obtain ⟨ihp, ihtl, iht, ihel, ihe⟩ := ih
    refine ⟨?_, ?_, ?_, ?_, ?_⟩
    · intro w hb
      simp only [primary]
      cases hg : Token_stream.get w with
      | err e w1 => exact ⟨_, rfl, fun _ _ h => by cases h⟩
      | ok t w1 =>
        have s1 := get_size hg
        dsimp only
        by_cases k1 : t.kind = '('
        · rw [if_pos k1]
          obtain ⟨r, hr, post⟩ := ihe w1 (by omega)
          rw [hr]
          cases r with
          | err e w2 => exact ⟨_, rfl, fun _ _ h => by cases h⟩
          | ok d w2 =>
            have s2 := post d w2 rfl
            dsimp only
            cases hg2 : Token_stream.get w2 with
            | err e w3 => exact ⟨_, rfl, fun _ _ h => by cases h⟩
            | ok t2 w3 =>
              have s3 := get_size hg2
              dsimp only
              by_cases kc : t2.kind = ')'
              · rw [if_neg (not_not.mpr kc)]
                exact ⟨_, rfl, fun _ _ h => by cases h; omega⟩
              · rw [if_pos kc]
                exact ⟨_, rfl, fun _ _ h => by cases h⟩
        rw [if_neg k1]
        by_cases k2 : t.kind = '{'
        · rw [if_pos k2]
          obtain ⟨r, hr, post⟩ := ihe w1 (by omega)
          rw [hr]
          cases r with
          | err e w2 => exact ⟨_, rfl, fun _ _ h => by cases h⟩
          | ok d w2 =>
            have s2 := post d w2 rfl
            dsimp only
            cases hg2 : Token_stream.get w2 with
            | err e w3 => exact ⟨_, rfl, fun _ _ h => by cases h⟩
            | ok t2 w3 =>
              have s3 := get_size hg2
              dsimp only
              by_cases kc : t2.kind = '}'
              · rw [if_neg (not_not.mpr kc)]
                exact ⟨_, rfl, fun _ _ h => by cases h; omega⟩
              · rw [if_pos kc]
                exact ⟨_, rfl, fun _ _ h => by cases h⟩
        rw [if_neg k2]
        by_cases k3 : t.kind = Token.number
        · rw [if_pos k3]
          cases hg2 : Token_stream.get w1 with
          | err e w2 => exact ⟨_, rfl, fun _ _ h => by cases h⟩
          | ok t2 w2 =>
            have s2 := get_size hg2
            dsimp only
            by_cases kb : t2.kind = '!'
            · rw [if_pos kb]
              by_cases hneg : DoubleOps.toInt t.value < 0
              · rw [if_pos hneg]
                exact ⟨_, rfl, fun _ _ h => by cases h⟩
              · rw [if_neg hneg]
                exact ⟨_, rfl, fun _ _ h => by cases h; omega⟩
            · rw [if_neg kb]
              cases hpb : Token_stream.putback t2 w2 with
              | err e w3 => exact ⟨_, rfl, fun _ _ h => by cases h⟩
              | ok u w3 =>
                have s3 := putback_size hpb
                exact ⟨_, rfl, fun _ _ h => by cases h; omega⟩
        rw [if_neg k3]
        by_cases k4 : t.kind = '-'
        · rw [if_pos k4]
          obtain ⟨r, hr, post⟩ := ihp w1 (by omega)
          rw [hr]
          cases r with
          | err e w2 => exact ⟨_, rfl, fun _ _ h => by cases h⟩
          | ok d w2 =>
            have s2 := post d w2 rfl
            exact ⟨_, rfl, fun _ _ h => by cases h; omega⟩
        rw [if_neg k4]
        by_cases k5 : t.kind = '+'
        · rw [if_pos k5]
          obtain ⟨r, hr, post⟩ := ihp w1 (by omega)
          exact ⟨r, hr, fun v w2 h => by have := post v w2 h; omega⟩
        rw [if_neg k5]
        exact ⟨_, rfl, fun _ _ h => by cases h⟩
    · intro left t w hb
      simp only [termLoop]
      by_cases k1 : t.kind = '*'
      · rw [if_pos k1]
        obtain ⟨r, hr, post⟩ := ihp w (by omega)
        rw [hr]
        cases r with
        | err e w1 => exact ⟨_, rfl, fun _ _ h => by cases h⟩
        | ok d w1 =>
          have s1 := post d w1 rfl
          dsimp only
          cases hg : Token_stream.get w1 with
          | err e w2 => exact ⟨_, rfl, fun _ _ h => by cases h⟩
          | ok t2 w2 =>
            have s2 := get_size hg
            obtain ⟨r2, hr2, post2⟩ := ihtl _ t2 w2 (by omega)
            exact ⟨r2, hr2, fun v w3 h => by have := post2 v w3 h; omega⟩
      rw [if_neg k1]
      by_cases k2 : t.kind = '/'
      · rw [if_pos k2]
        obtain ⟨r, hr, post⟩ := ihp w (by omega)
        rw [hr]
        cases r with
        | err e w1 => exact ⟨_, rfl, fun _ _ h => by cases h⟩
        | ok d w1 =>
          have s1 := post d w1 rfl
          dsimp only
          by_cases hz : DoubleOps.isZero d = true
          · rw [if_pos hz]
            exact ⟨_, rfl, fun _ _ h => by cases h⟩
          rw [if_neg hz]
          cases hg : Token_stream.get w1 with
          | err e w2 => exact ⟨_, rfl, fun _ _ h => by cases h⟩
          | ok t2 w2 =>
            have s2 := get_size hg
            obtain ⟨r2, hr2, post2⟩ := ihtl _ t2 w2 (by omega)
            exact ⟨r2, hr2, fun v w3 h => by have := post2 v w3 h; omega⟩
      rw [if_neg k2]
      by_cases k3 : t.kind = '%'
      · rw [if_pos k3]
        obtain ⟨r, hr, post⟩ := ihp w (by omega)
        rw [hr]
        cases r with
        | err e w1 => exact ⟨_, rfl, fun _ _ h => by cases h⟩
        | ok d w1 =>
          have s1 := post d w1 rfl
          dsimp only
          by_cases hz : DoubleOps.isZero d = true
          · rw [if_pos hz]
            exact ⟨_, rfl, fun _ _ h => by cases h⟩
          rw [if_neg hz]
          cases hg : Token_stream.get w1 with
          | err e w2 => exact ⟨_, rfl, fun _ _ h => by cases h⟩
          | ok t2 w2 =>
            have s2 := get_size hg
            obtain ⟨r2, hr2, post2⟩ := ihtl _ t2 w2 (by omega)
            exact ⟨r2, hr2, fun v w3 h => by have := post2 v w3 h; omega⟩
      rw [if_neg k3]
      cases hpb : Token_stream.putback t w with
      | err e w3 => exact ⟨_, rfl, fun _ _ h => by cases h⟩
      | ok u w3 =>
        have s3 := putback_size hpb
        exact ⟨_, rfl, fun _ _ h => by cases h; omega⟩
    · intro w hb
      simp only [term]
      obtain ⟨r, hr, post⟩ := ihp w (by omega)
      rw [hr]
      cases r with
      | err e w1 => exact ⟨_, rfl, fun _ _ h => by cases h⟩
      | ok d w1 =>
        have s1 := post d w1 rfl
        dsimp only
        cases hg : Token_stream.get w1 with
        | err e w2 => exact ⟨_, rfl, fun _ _ h => by cases h⟩
        | ok t2 w2 =>
          have s2 := get_size hg
          obtain ⟨r2, hr2, post2⟩ := ihtl d t2 w2 (by omega)
          exact ⟨r2, hr2, fun v w3 h => by have := post2 v w3 h; omega⟩
    · intro left t w hb
      simp only [expressionLoop]
      by_cases k1 : t.kind = '+'
      · rw [if_pos k1]
        obtain ⟨r, hr, post⟩ := iht w (by omega)
        rw [hr]
        cases r with
        | err e w1 => exact ⟨_, rfl, fun _ _ h => by cases h⟩
        | ok d w1 =>
          have s1 := post d w1 rfl
          dsimp only
          cases hg : Token_stream.get w1 with
          | err e w2 => exact ⟨_, rfl, fun _ _ h => by cases h⟩
          | ok t2 w2 =>
            have s2 := get_size hg
            obtain ⟨r2, hr2, post2⟩ := ihel _ t2 w2 (by omega)
            exact ⟨r2, hr2, fun v w3 h => by have := post2 v w3 h; omega⟩
      rw [if_neg k1]
      by_cases k2 : t.kind = '-'
      · rw [if_pos k2]
        obtain ⟨r, hr, post⟩ := iht w (by omega)
        rw [hr]
        cases r with
        | err e w1 => exact ⟨_, rfl, fun _ _ h => by cases h⟩
        | ok d w1 =>
          have s1 := post d w1 rfl
          dsimp only
          cases hg : Token_stream.get w1 with
          | err e w2 => exact ⟨_, rfl, fun _ _ h => by cases h⟩
          | ok t2 w2 =>
            have s2 := get_size hg
            obtain ⟨r2, hr2, post2⟩ := ihel _ t2 w2 (by omega)
            exact ⟨r2, hr2, fun v w3 h => by have := post2 v w3 h; omega⟩
      rw [if_neg k2]
      cases hpb : Token_stream.putback t w with
      | err e w3 => exact ⟨_, rfl, fun _ _ h => by cases h⟩
      | ok u w3 =>
        have s3 := putback_size hpb
        exact ⟨_, rfl, fun _ _ h => by cases h; omega⟩
    · intro w hb
      simp only [expression]
      obtain ⟨r, hr, post⟩ := iht w (by omega)
      rw [hr]
      cases r with
      | err e w1 => exact ⟨_, rfl, fun _ _ h => by cases h⟩
      | ok d w1 =>
        have s1 := post d w1 rfl
        dsimp only
        cases hg : Token_stream.get w1 with
        | err e w2 => exact ⟨_, rfl, fun _ _ h => by cases h⟩
        | ok t2 w2 =>
          have s2 := get_size hg
          obtain ⟨r2, hr2, post2⟩ := ihel d t2 w2 (by omega)
          exact ⟨r2, hr2, fun v w3 h => by have := post2 v w3 h; omega⟩


theorem grammar_fuel_mono {D : Type} [DoubleOps D] (n : Nat) :
    (∀ (w : World D) (r : Res D D), primary n w = some r → primary (n + 1) w = some r) ∧
    (∀ (left : D) (t : Token D) (w : World D) (r : Res D D),
      termLoop n left t w = some r → termLoop (n + 1) left t w = some r) ∧
    (∀ (w : World D) (r : Res D D), term n w = some r → term (n + 1) w = some r) ∧
    (∀ (left : D) (t : Token D) (w : World D) (r : Res D D),
      expressionLoop n left t w = some r → expressionLoop (n + 1) left t w = some r) ∧
    (∀ (w : World D) (r : Res D D),
      expression n w = some r → expression (n + 1) w = some r) := by
  induction n with
  | zero => simp [primary, termLoop, term, expressionLoop, expression]
  | succ n ih =>
    obtain ⟨ihp, ihtl, iht, ihel, ihe⟩ := ih
    have c1 : ¬ (Token.number = '(') := by decide
    have c2 : ¬ (Token.number = '{') := by decide
    have c3 : ¬ ('-' = Token.number) := by decide
    have c4 : ¬ ('+' = Token.number) := by decide
    refine ⟨?_, ?_, ?_, ?_, ?_⟩
    · intro w r h
      rw [primary] at h ⊢
      dsimp only at h
      repeat' split at h
      all_goals first
        | (cases h; done)
        | (simp only [Option.some.injEq] at h
           subst h
           first
             | (have e1 := ihe _ _ ‹expression n _ = some _›
                simp [*])
             | (have e2 := ihp _ _ ‹primary n _ = some _›
                simp [*])
             | simp [*])
        | (have e2 := ihp _ _ h
           simp [*])
    · intro left t w r h
      rw [termLoop] at h ⊢
      repeat' split at h
      all_goals first
        | (cases h; done)
        | (simp only [Option.some.injEq] at h
           subst h
           first
             | (have e2 := ihp _ _ ‹primary n _ = some _›
                simp [*])
             | simp [*])
        | (have e1 := ihp _ _ ‹primary n _ = some _›
           have e2 := ihtl _ _ _ _ h
           simp [*])
    · intro w r h
      rw [term] at h ⊢
      repeat' split at h
      all_goals first
        | (cases h; done)
        | (simp only [Option.some.injEq] at h
           subst h
           have e2 := ihp _ _ ‹primary n _ = some _›
           simp [*])
        | (have e1 := ihp _ _ ‹primary n _ = some _›
           have e2 := ihtl _ _ _ _ h
           simp [*])
    · intro left t w r h
      rw [expressionLoop] at h ⊢
      repeat' split at h
      all_goals first
        | (cases h; done)
        | (simp only [Option.some.injEq] at h
           subst h
           first
             | (have e2 := iht _ _ ‹term n _ = some _›
                simp [*])
             | simp [*])
        | (have e1 := iht _ _ ‹term n _ = some _›
           have e2 := ihel _ _ _ _ h
           simp [*])
    · intro w r h
      rw [expression] at h ⊢
      repeat' split at h
      all_goals first
        | (cases h; done)
        | (simp only [Option.some.injEq] at h
           subst h
           have e2 := iht _ _ ‹term n _ = some _›
           simp [*])
        | (have e1 := iht _ _ ‹term n _ = some _›
           have e2 := ihel _ _ _ _ h
           simp [*])


theorem grammar_fuel_add {D : Type} [DoubleOps D] (n k : Nat) (w : World D) (r : Res D D) :
    (primary n w = some r → primary (n + k) w = some r) ∧
    (term n w = some r → term (n + k) w = some r) ∧
    (expression n w = some r → expression (n + k) w = some r) := by
  induction k with
  | zero => exact ⟨id, id, id⟩
  | succ k ih =>
    refine ⟨fun h => ?_, fun h => ?_, fun h => ?_⟩
    · exact (grammar_fuel_mono (n + k)).1 w r (ih.1 h)
    · exact (grammar_fuel_mono (n + k)).2.2.1 w r (ih.2.1 h)
    · exact (grammar_fuel_mono (n + k)).2.2.2.2 w r (ih.2.2 h)

/-! ## The claims -/

/-- C3 (evaluation at the failing input): `get()` returns the number token with the
value 2.5 for the text `2.5`, and `expression()` on the statement `2.5;` yields 2. -/
theorem fraction_literal_truncated :
    Token_stream.get (World.start "2.5;" : World ℚ) =
      .ok ⟨Token.number, 5 / 2⟩ ⟨Token_stream.new, ⟨[';'], false⟩, []⟩ ∧
    expression 4 (World.start "2.5;" : World ℚ) =
      some (.ok 2 ⟨⟨true, Token.ofChar ';'⟩, ⟨[], false⟩, []⟩) := by
  constructor <;> decide!

/-- C4 (counterexample): the statement `13!;` yields 1932053504, which is not 13!. -/
theorem factorial_13_overflows :
    expression 4 (World.start "13!;" : World ℚ) =
      some (.ok 1932053504 ⟨⟨true, Token.ofChar ';'⟩, ⟨[], false⟩, []⟩) ∧
    ((Nat.factorial 13 : Nat) : ℚ) ≠ 1932053504 := by
  constructor
  · decide!
  · decide!

/-- C4 (amended): for every integer literal `n` with `n ≤ 12`, `expression()` on the
statement `n!;` yields the factorial of `n` (converted from `int` to `double`); `5!;`
yields 120 and `0!;` yields 1. -/
theorem factorial_small {D : Type} [DoubleOps D] [LawfulDoubleOps D] (k : Nat)
    (w : World D) (ds rest : List Char) (n : Nat) (hn : IntLiteral ds n) (h12 : n ≤ 12)
    (hw : w.ts.full = false) (hcin : w.cin = ⟨ds ++ '!' :: ';' :: rest, false⟩) :
    expression (k + 4) w =
      some (.ok (DoubleOps.ofInt (Nat.factorial n : Int))
        { w with ts := ⟨true, Token.ofChar ';'⟩, cin := ⟨rest, false⟩ }) ∧
    expression 4 (World.start "5!;" : World ℚ) =
      some (.ok 120 ⟨⟨true, Token.ofChar ';'⟩, ⟨[], false⟩, []⟩) ∧
    expression 4 (World.start "0!;" : World ℚ) =
      some (.ok 1 ⟨⟨true, Token.ofChar ';'⟩, ⟨[], false⟩, []⟩) := by
  obtain ⟨⟨f, bf⟩, i, o⟩ := w
  simp only at hw hcin
  subst hw hcin
  refine ⟨?_, by decide!, by decide!⟩
  have e1 := fun j bb => primary_intLit_bang (D := D) j bb ds n (';' :: rest) o hn
  have g := fun bb => get_symbol (D := D) bb ';' rest o (by decide)
  simp [expression, term, termLoop, expressionLoop, e1, g, get_buffered, putback_empty,
    kind_ofChar, factLoop_small n h12]

/-- Witness of C4 (amended) at the statement `5!;`. -/
theorem factorial_small_witness :
    expression 4 (World.start "5!;" : World ℚ) =
      some (.ok (DoubleOps.ofInt (Nat.factorial 5 : Int))
        ⟨⟨true, Token.ofChar ';'⟩, ⟨[], false⟩, []⟩) :=
  (factorial_small (D := ℚ) 0 (World.start "5!;") ['5'] [] 5 (by decide) (by decide)
    rfl rfl).1

/-- C5 (counterexample): neither `-1!;` nor `(-1)!;` raises an error in `expression()`. -/
theorem negated_factorial_no_error :
    expression 5 (World.start "-1!;" : World ℚ) =
      some (.ok (-1) ⟨⟨true, Token.ofChar ';'⟩, ⟨[], false⟩, []⟩) ∧
    expression 9 (World.start "(-1)!;" : World ℚ) =
      some (.ok (-1) ⟨⟨true, Token.ofChar '!'⟩, ⟨[';'], false⟩, []⟩) := by
  constructor <;> decide!

/-- C5 (amended): `primary()` raises the error "Factorial of a negative number is
undefined" when `!` follows a number token whose value converts to a negative `int`.
The inputs `-1!` and `(-1)!` do not raise it: `-1!;` yields `-(1!) = -1`, and `(-1)!;`
yields the value `-1` of the group with the `!` left in the buffer. -/
theorem negative_factorial_error {D : Type} [DoubleOps D] (n : Nat) (w w1 w2 : World D)
    (t t2 : Token D) (hg : Token_stream.get w = .ok t w1) (hk : t.kind = Token.number)
    (hg2 : Token_stream.get w1 = .ok t2 w2) (hb : t2.kind = '!')
    (hneg : DoubleOps.toInt t.value < 0) :
    primary (n + 1) w = some (.err .negFactorial w2) ∧
    Err.message .negFactorial = "Factorial of a negative number is undefined" ∧
    expression 5 (World.start "-1!;" : World ℚ) =
      some (.ok (-1) ⟨⟨true, Token.ofChar ';'⟩, ⟨[], false⟩, []⟩) ∧
    expression 9 (World.start "(-1)!;" : World ℚ) =
      some (.ok (-1) ⟨⟨true, Token.ofChar '!'⟩, ⟨[';'], false⟩, []⟩) := by
  refine ⟨?_, rfl, by decide!, by decide!⟩
  rw [primary_number_bang n w w1 w2 t t2 hg hk hg2 hb, if_pos hneg]

/-- Witness of C5 (amended): a buffered number token of value `-1` followed by `!`. -/
theorem negative_factorial_error_witness :
    primary 1 (⟨⟨true, ⟨Token.number, -1⟩⟩, ⟨['!'], false⟩, []⟩ : World ℚ) =
      some (.err .negFactorial ⟨⟨false, ⟨Token.number, -1⟩⟩, ⟨[], false⟩, []⟩) :=
  (negative_factorial_error (D := ℚ) 0 ⟨⟨true, ⟨Token.number, -1⟩⟩, ⟨['!'], false⟩, []⟩
    ⟨⟨false, ⟨Token.number, -1⟩⟩, ⟨['!'], false⟩, []⟩
    ⟨⟨false, ⟨Token.number, -1⟩⟩, ⟨[], false⟩, []⟩ ⟨Token.number, -1⟩ (Token.ofChar '!')
    rfl rfl (by decide!) rfl (by decide!)).1

/-- C6: division and modulo by zero.  For every running value `left` and every right
operand (a primary that evaluates to `d`), the loop of `term()` on `/` fails with
"divide by zero" when `d == 0` and otherwise goes on with `left / d`; on `%` it fails
with "%: divide by zero" when `d == 0` and otherwise goes on with `fmod(left, d)`; so does
`term()` itself when the operator follows its first primary.  `1/0;` raises the first
error and `1%0;` the second. -/
theorem division_modulo_by_zero {D : Type} [DoubleOps D] (n : Nat) (left d : D)
    (t : Token D) (w w1 : World D) (hp : primary n w = some (.ok d w1)) :
    (t.kind = '/' → termLoop (n + 1) left t w =
      if DoubleOps.isZero d = true then some (.err .divZero w1)
      else
        match Token_stream.get w1 with
        | .err e w2 => some (.err e w2)
        | .ok t2 w2 => termLoop n (DoubleOps.div left d) t2 w2) ∧
    (t.kind = '%' → termLoop (n + 1) left t w =
      if DoubleOps.isZero d = true then some (.err .modZero w1)
      else
        match Token_stream.get w1 with
        | .err e w2 => some (.err e w2)
        | .ok t2 w2 => termLoop n (DoubleOps.fmod left d) t2 w2) ∧
    (∀ w0 wa : World D, primary (n + 1) w0 = some (.ok left wa) →
      Token_stream.get wa = .ok t w → DoubleOps.isZero d = true →
      (t.kind = '/' → term (n + 2) w0 = some (.err .divZero w1)) ∧
      (t.kind = '%' → term (n + 2) w0 = some (.err .modZero w1))) ∧
    Err.message .divZero = "divide by zero" ∧
    Err.message .modZero = "%: divide by zero" ∧
    expression 5 (World.start "1/0;" : World ℚ) =
      some (.err .divZero ⟨⟨true, Token.ofChar ';'⟩, ⟨[], false⟩, []⟩) ∧
    expression 5 (World.start "1%0;" : World ℚ) =
      some (.err .modZero ⟨⟨true, Token.ofChar ';'⟩, ⟨[], false⟩, []⟩) := by
  have c1 : ¬ ('/' = '*') := by decide
  have c2 : ¬ ('%' = '*') := by decide
  have c3 : ¬ ('%' = '/') := by decide
  have h1 : t.kind = '/' → termLoop (n + 1) left t w =
      if DoubleOps.isZero d = true then some (.err .divZero w1)
      else
        match Token_stream.get w1 with
        | .err e w2 => some (.err e w2)
        | .ok t2 w2 => termLoop n (DoubleOps.div left d) t2 w2 := by
    intro hk
    by_cases hz : DoubleOps.isZero d = true
    · simp only [termLoop, hk, hp, c1, hz, if_false, if_true]
    · cases hget : Token_stream.get w1 <;>
        simp only [termLoop, hk, hp, c1, hz, hget, if_false, if_true]
  have h2 : t.kind = '%' → termLoop (n + 1) left t w =
      if DoubleOps.isZero d = true then some (.err .modZero w1)
      else
        match Token_stream.get w1 with
        | .err e w2 => some (.err e w2)
        | .ok t2 w2 => termLoop n (DoubleOps.fmod left d) t2 w2 := by
    intro hk
    by_cases hz : DoubleOps.isZero d = true
    · simp only [termLoop, hk, hp, c2, c3, hz, if_false, if_true]
    · cases hget : Token_stream.get w1 <;>
        simp only [termLoop, hk, hp, c2, c3, hz, hget, if_false, if_true]
  refine ⟨h1, h2, ?_, rfl, rfl, by decide!, by decide!⟩
  intro w0 wa hp0 hg hz
  constructor
  · intro hk
    simp only [term, hp0, hg, h1 hk, hz, if_true]
  · intro hk
    simp only [term, hp0, hg, h2 hk, hz, if_true]

/-- Witness of C6: the loop of `term()` after `1 /` on the text `0;`. -/
theorem division_modulo_by_zero_witness :
    termLoop 2 (1 : ℚ) (Token.ofChar '/') ⟨⟨false, Token.ofChar '/'⟩, ⟨['0', ';'], false⟩, []⟩ =
      (if DoubleOps.isZero (0 : ℚ) = true then
        some (.err .divZero ⟨⟨true, Token.ofChar ';'⟩, ⟨[], false⟩, []⟩)
      else
        match Token_stream.get (⟨⟨true, Token.ofChar ';'⟩, ⟨[], false⟩, []⟩ : World ℚ) with
        | .err e w2 => some (.err e w2)
        | .ok t2 w2 => termLoop 1 (DoubleOps.div 1 0) t2 w2) :=
  (division_modulo_by_zero (D := ℚ) 1 1 0 (Token.ofChar '/')
    ⟨⟨false, Token.ofChar '/'⟩, ⟨['0', ';'], false⟩, []⟩
    ⟨⟨true, Token.ofChar ';'⟩, ⟨[], false⟩, []⟩ (by decide!)).1 rfl

/-- C7: grouping.  When `primary()` reads an opener, the expression after it evaluates
to `d` and the next token is `t2`: for `(` it returns `d` if `t2` is `)` and fails with
"')' expected" otherwise; for `{` it returns `d` if `t2` is `}` and fails with
"'}' expected" otherwise; in each case `t2` has been read.  The statement `(1+2;` raises
"')' expected". -/
theorem group_closer {D : Type} [DoubleOps D] (n : Nat) (w w1 w2 w3 : World D)
    (t t2 : Token D) (d : D) (hg : Token_stream.get w = .ok t w1)
    (he : expression n w1 = some (.ok d w2)) (hg2 : Token_stream.get w2 = .ok t2 w3) :
    (t.kind = '(' → t2.kind = ')' → primary (n + 1) w = some (.ok d w3)) ∧
    (t.kind = '{' → t2.kind = '}' → primary (n + 1) w = some (.ok d w3)) ∧
    (t.kind = '(' → t2.kind ≠ ')' → primary (n + 1) w = some (.err .rparenExpected w3)) ∧
    (t.kind = '{' → t2.kind ≠ '}' → primary (n + 1) w = some (.err .rbraceExpected w3)) ∧
    Err.message .rparenExpected = "\x27)\x27 expected" ∧
    Err.message .rbraceExpected = "\x27\x7d\x27 expected" ∧
    expression 9 (World.start "(1+2;" : World ℚ) =
      some (.err .rparenExpected ⟨⟨false, Token.ofChar ';'⟩, ⟨[], false⟩, []⟩) := by
  have h := primary_group n w w1 w2 w3 t t2 d hg he hg2
  refine ⟨?_, ?_, ?_, ?_, rfl, rfl, by decide!⟩
  · intro hk hc
    rw [h.1 hk, if_pos hc]
  · intro hk hc
    rw [h.2 hk, if_pos hc]
  · intro hk hc
    rw [h.1 hk, if_neg hc]
  · intro hk hc
    rw [h.2 hk, if_neg hc]

/-- Witness of C7 on the text `(1+2)q`. -/
theorem group_closer_witness :
    primary 7 (World.start "(1+2)q" : World ℚ) =
      some (.ok 3 ⟨⟨false, Token.ofChar ')'⟩, ⟨['q'], false⟩, []⟩) :=
  (group_closer (D := ℚ) 6 (World.start "(1+2)q")
    ⟨Token_stream.new, ⟨"1+2)q".toList, false⟩, []⟩
    ⟨⟨true, Token.ofChar ')'⟩, ⟨['q'], false⟩, []⟩
    ⟨⟨false, Token.ofChar ')'⟩, ⟨['q'], false⟩, []⟩ (Token.ofChar '(') (Token.ofChar ')') 3
    (by decide!) (by decide!) (by decide!)).1 rfl rfl

/-- C8: unary operators.  When the text after a sign parses as a primary of value `v`,
`primary()` on `-` and that text yields `-v`, on `+` and that text yields `v`, and on two
`-` and that text yields `v`; the state left is the one the inner primary leaves.  With
exact arithmetic `--5;` yields 5 and `-(2+3);` yields -5. -/
theorem unary_sign {D : Type} [DoubleOps D] [LawfulDoubleOps D] (n : Nat)
    (w w1 w2 : World D) (t : Token D) (v : D) (hg : Token_stream.get w = .ok t w1)
    (hp : primary n w1 = some (.ok v w2)) :
    (t.kind = '-' → primary (n + 1) w = some (.ok (DoubleOps.neg v) w2)) ∧
    (t.kind = '+' → primary (n + 1) w = some (.ok v w2)) ∧
    (t.kind = '-' → ∀ w0 : World D, ∀ t0 : Token D, Token_stream.get w0 = .ok t0 w →
      t0.kind = '-' → primary (n + 2) w0 = some (.ok v w2)) ∧
    expression 6 (World.start "--5;" : World ℚ) =
      some (.ok 5 ⟨⟨true, Token.ofChar ';'⟩, ⟨[], false⟩, []⟩) ∧
    expression 9 (World.start "-(2+3);" : World ℚ) =
      some (.ok (-5) ⟨⟨true, Token.ofChar ';'⟩, ⟨[], false⟩, []⟩) := by
  have c1 : ¬ ('-' = '(') ∧ ¬ ('-' = '{') ∧ ¬ ('-' = Token.number) := by decide
  have c2 : ¬ ('+' = '(') ∧ ¬ ('+' = '{') ∧ ¬ ('+' = Token.number) ∧ ¬ ('+' = '-') := by
    decide
  have h1 : t.kind = '-' → primary (n + 1) w = some (.ok (DoubleOps.neg v) w2) := by
    intro hk
    simp only [primary, hg, hk, hp, c1.1, c1.2.1, c1.2.2, if_false, if_true]
  refine ⟨h1, ?_, ?_, by decide!, by decide!⟩
  · intro hk
    simp only [primary, hg, hk, hp, c2.1, c2.2.1, c2.2.2.1, c2.2.2.2, if_false, if_true]
  · intro hk w0 t0 hg0 hk0
    simp only [primary, hg0, hk0, c1.1, c1.2.1, c1.2.2, if_false, if_true]
    have h := h1 hk
    simp only [primary] at h
    simp only [h, LawfulDoubleOps.neg_neg]

/-- Witness of C8 on the statement `-5;`. -/
theorem unary_sign_witness :
    primary 2 (World.start "-5;" : World ℚ) =
      some (.ok (DoubleOps.neg 5) ⟨⟨true, Token.ofChar ';'⟩, ⟨[], false⟩, []⟩) :=
  (unary_sign (D := ℚ) 1 (World.start "-5;") ⟨Token_stream.new, ⟨['5', ';'], false⟩, []⟩
    ⟨⟨true, Token.ofChar ';'⟩, ⟨[], false⟩, []⟩ (Token.ofChar '-') 5
    (by decide!) (by decide!)).1 rfl

/-- C9: the error "putback() into a full buffer" is unreachable.  For every amount of
fuel and every state (the buffer empty or not, any input text), neither `calculate()` nor
`expression()`, `term()` or `primary()` ends with that error; and a `putback()` that
follows a `get()` finds the buffer empty. -/
theorem putback_error_unreachable {D : Type} [DoubleOps D] (n : Nat) (w w9 : World D) :
    calculate n w ≠ some (.err .putbackFull w9) ∧
    expression n w ≠ some (.err .putbackFull w9) ∧
    term n w ≠ some (.err .putbackFull w9) ∧
    primary n w ≠ some (.err .putbackFull w9) ∧
    (∀ (t t2 : Token D) (w1 : World D), Token_stream.get w = .ok t w1 →
      Token_stream.putback t2 w1 = .ok () { w1 with ts := ⟨true, t2⟩ }) :=
  ⟨fun h => calculate_no_putback_error n w w9 _ h rfl,
   fun h => (grammar_no_putback_error n).2.2.2.2 w w9 _ h rfl,
   fun h => (grammar_no_putback_error n).2.2.1 w w9 _ h rfl,
   fun h => (grammar_no_putback_error n).1 w w9 _ h rfl,
   fun _ t2 _ hg => putback_of_empty t2 (get_ok_empty hg)⟩

/-- C10: pushback round trip.  From a state with an empty buffer, `putback(t)` succeeds
and the `get()` after it returns exactly `t`, leaves the buffer empty and leaves `cin`
(and `cout`) as they were. -/
theorem putback_get_roundtrip {D : Type} [DoubleOps D] (t : Token D) (w : World D)
    (hw : w.ts.full = false) :
    ∃ w1 w2 : World D,
      Token_stream.putback t w = .ok () w1 ∧
      Token_stream.get w1 = .ok t w2 ∧
      w2.ts.full = false ∧ w2.cin = w.cin ∧ w2.cout = w.cout := by
  refine ⟨{ w with ts := ⟨true, t⟩ }, { w with ts := ⟨false, t⟩ }, ?_, ?_, rfl, rfl, rfl⟩
  · simp [Token_stream.putback, hw]
  · simp [Token_stream.get]

/-- Witness of C10: a number token pushed back before the text `+1;`. -/
theorem putback_get_roundtrip_witness :
    ∃ w1 w2 : World ℚ,
      Token_stream.putback ⟨Token.number, 7⟩ (World.start "+1;") = .ok () w1 ∧
      Token_stream.get w1 = .ok ⟨Token.number, 7⟩ w2 ∧
      w2.ts.full = false ∧ w2.cin = (World.start "+1;" : World ℚ).cin ∧
      w2.cout = (World.start "+1;" : World ℚ).cout :=
  putback_get_roundtrip ⟨Token.number, 7⟩ (World.start "+1;") rfl

/-- C11: `putback(t)` fails with "putback() into a full buffer" if and only if a token
is buffered, and then leaves the whole state (buffered token, `cin`) as it was; otherwise
it succeeds with `full = true`, `buffer = t` and `cin` untouched. -/
theorem putback_contract {D : Type} (t : Token D) (w : World D) :
    (w.ts.full = true → Token_stream.putback t w = .err .putbackFull w) ∧
    (w.ts.full = false → Token_stream.putback t w = .ok () { w with ts := ⟨true, t⟩ }) ∧
    ((∃ w1, Token_stream.putback t w = .err .putbackFull w1) ↔ w.ts.full = true) ∧
    (∀ (e : Err) (w1 : World D), Token_stream.putback t w = .err e w1 →
      e = .putbackFull ∧ w1 = w) ∧
    (∀ w1 : World D, Token_stream.putback t w = .ok () w1 →
      w1.ts.full = true ∧ w1.ts.buffer = t ∧ w1.cin = w.cin ∧ w1.cout = w.cout) ∧
    Err.message .putbackFull = "putback() into a full buffer" := by
  cases hf : w.ts.full <;> simp [Token_stream.putback, hf, Err.message]

/-- C12: when the token `t` that `primary()` reads first is neither a number nor `(`,
`{`, `-`, `+` (in particular when it is one of `)`, `}`, `*`, `/`, `%`, `!`, `;`, `q`),
`primary()` fails with "primary expected" and returns no value. -/
theorem primary_expected {D : Type} [DoubleOps D] (n : Nat) (w w1 : World D) (t : Token D)
    (hg : Token_stream.get w = .ok t w1) :
    (t.kind ≠ Token.number → t.kind ≠ '(' → t.kind ≠ '{' → t.kind ≠ '-' → t.kind ≠ '+' →
      primary (n + 1) w = some (.err .primaryExpected w1)) ∧
    (t.kind ∈ [')', '}', '*', '/', '%', '!', ';', 'q'] →
      primary (n + 1) w = some (.err .primaryExpected w1)) ∧
    Err.message .primaryExpected = "primary expected" := by
  have h1 : t.kind ≠ Token.number → t.kind ≠ '(' → t.kind ≠ '{' → t.kind ≠ '-' →
      t.kind ≠ '+' → primary (n + 1) w = some (.err .primaryExpected w1) := by
    intro a1 a2 a3 a4 a5
    simp only [primary, hg, a1, a2, a3, a4, a5, if_false]
  refine ⟨h1, ?_, rfl⟩
  intro hm
  have hk : t.kind ≠ Token.number ∧ t.kind ≠ '(' ∧ t.kind ≠ '{' ∧ t.kind ≠ '-' ∧
      t.kind ≠ '+' := by
    simp only [List.mem_cons, List.mem_singleton, List.not_mem_nil, or_false] at hm
    rcases hm with h | h | h | h | h | h | h | h <;> rw [h] <;> decide
  exact h1 hk.1 hk.2.1 hk.2.2.1 hk.2.2.2.1 hk.2.2.2.2

/-- Witness of C12 on the text `*2;`. -/
theorem primary_expected_witness :
    primary 1 (World.start "*2;" : World ℚ) =
      some (.err .primaryExpected ⟨Token_stream.new, ⟨['2', ';'], false⟩, []⟩) :=
  (primary_expected (D := ℚ) 0 (World.start "*2;") ⟨Token_stream.new, ⟨['2', ';'], false⟩, []⟩
    (Token.ofChar '*') (by decide!)).2.1 (by decide)

/-- C13: lexer classification.  With an empty buffer and `c` the next character of the
input that is no whitespace: when `c` is one of `; q ( ) + - * / { } ! %`, `get()`
returns the token of kind `c` with value 0 and consumes `c`; `get()` fails with
"Bad token" if and only if `c` is neither one of these symbols nor a digit nor `.`, and
it fails with no other error. -/
theorem lexer_classification {D : Type} [DoubleOps D] (w : World D) (c : Char)
    (cs : List Char) (hw : w.ts.full = false) (hf : w.cin.failed = false)
    (hc : skipws w.cin.chars = c :: cs) :
    (isSymbol c = true ↔
      c ∈ [';', 'q', '(', ')', '+', '-', '*', '/', '{', '}', '!', '%']) ∧
    (isSymbol c = true →
      Token_stream.get w = .ok ⟨c, DoubleOps.ofInt 0⟩ { w with cin := ⟨cs, false⟩ }) ∧
    ((∃ w1, Token_stream.get w = .err .badToken w1) ↔
      (isSymbol c = false ∧ c.isDigit = false ∧ c ≠ '.')) ∧
    (∀ (e : Err) (w1 : World D), Token_stream.get w = .err e w1 → e = .badToken) := by
  have hget := get_next_char w c cs hw hf hc
  refine ⟨?_, ?_, ?_, ?_⟩
  · simp [isSymbol, print, quit, or_assoc]
  · intro hs
    rw [hget, if_pos hs]
    rfl
  · constructor
    · rintro ⟨w1, h⟩
      rw [hget] at h
      split_ifs at h with h1 h2
      · simp only [not_or] at h2
        exact ⟨by simpa using h1, by simpa using h2.2, h2.1⟩
    · rintro ⟨h1, h2, h3⟩
      refine ⟨{ w with cin := ⟨cs, false⟩ }, ?_⟩
      rw [hget]
      simp [h1, h2, h3]
  · intro e w1 h
    rw [hget] at h
    split_ifs at h
    cases h
    rfl

/-- Witness of C13 on the text `  +1;` (leading blanks are skipped). -/
theorem lexer_classification_witness :
    Token_stream.get (World.start "  +1;" : World ℚ) =
      .ok ⟨'+', DoubleOps.ofInt 0⟩ ⟨Token_stream.new, ⟨['1', ';'], false⟩, []⟩ :=
  (lexer_classification (D := ℚ) (World.start "  +1;") '+' ['1', ';'] rfl rfl
    (by decide)).2.1 (by decide)

/-- C14 (counterexample): on the text `x;` `get()` fails with "Bad token" and the
remaining input is `;`: it does not begin with the offending `x`. -/
theorem bad_character_consumed :
    Token_stream.get (World.start "x;" : World ℚ) =
      .err .badToken ⟨Token_stream.new, ⟨[';'], false⟩, []⟩ ∧
    (⟨[';'], false⟩ : Istream).chars.head? ≠ some 'x' := by
  constructor
  · decide!
  · decide

/-- C14 (amended): when `get()` fails with "Bad token" on the character `c`, `c` has
been consumed: the remaining input is what follows `c`; the token buffer and `cout` are
unchanged. -/
theorem bad_token_position {D : Type} [DoubleOps D] (w w1 : World D) (c : Char)
    (cs : List Char) (hw : w.ts.full = false) (hf : w.cin.failed = false)
    (hc : skipws w.cin.chars = c :: cs)
    (hb : Token_stream.get w = .err .badToken w1) :
    w1.cin = ⟨cs, false⟩ ∧ w1.ts = w.ts ∧ w1.cout = w.cout := by
  rw [get_next_char w c cs hw hf hc] at hb
  split_ifs at hb
  cases hb
  exact ⟨rfl, rfl, rfl⟩

/-- Witness of C14 (amended) on the text `x;`. -/
theorem bad_token_position_witness :
    (⟨Token_stream.new, ⟨[';'], false⟩, []⟩ : World ℚ).cin = ⟨[';'], false⟩ ∧
    (⟨Token_stream.new, ⟨[';'], false⟩, []⟩ : World ℚ).ts = (World.start "x;" : World ℚ).ts ∧
    (⟨Token_stream.new, ⟨[';'], false⟩, []⟩ : World ℚ).cout =
      (World.start "x;" : World ℚ).cout :=
  bad_token_position (D := ℚ) (World.start "x;") ⟨Token_stream.new, ⟨[';'], false⟩, []⟩
    'x' [';'] rfl rfl (by decide) (by decide!)

/-- C15: per-statement output.  For every list of well-formed expressions `e1 ... ek`
with values `v1 ... vk` (`Statement`), `calculate()` on `e1;e2; ... ek;q` returns
normally and has written, for each `i` in order, the prompt, the result marker, `vi` and
the end of line, and then the prompt before `q`; it has read the input up to and
including `q`.  With exact arithmetic `2+3*4;(2+3)*4;q` writes `> = 14 > = 20 >`. -/
theorem per_statement_output {D : Type} [DoubleOps D] (N n : Nat)
    (stmts : List (List Char × D)) (rest : List Char) (w : World D)
    (hst : ∀ p ∈ stmts, Statement p.1 p.2 N) (hw : w.ts.full = false)
    (hcin : w.cin = ⟨session stmts rest, false⟩) :
    (∃ w1 : World D, calculate (n + N + stmts.length + 3) w = some (.ok () w1) ∧
      w1.cout = w.cout ++ sessionOutput stmts ++ [Out.chr prompt] ∧
      w1.cin = ⟨rest, false⟩) ∧
    calculate 12 (World.start "2+3*4;(2+3)*4;q" : World ℚ) =
      some (.ok () ⟨⟨false, Token.ofChar ';'⟩, ⟨[], false⟩,
        [Out.chr '>', Out.chr '=', Out.val 14, Out.endl,
         Out.chr '>', Out.chr '=', Out.val 20, Out.endl, Out.chr '>']⟩) := by
  refine ⟨?_, by decide!⟩
  obtain ⟨⟨f, b⟩, i, o⟩ := w
  simp only at hw hcin
  subst hw hcin
  obtain ⟨b1, h⟩ := calculate_session N rest stmts n false b o (fun h => by cases h) hst
  exact ⟨_, h, rfl, rfl⟩

/-- Witness of C15 on the session `5;7;q`. -/
theorem per_statement_output_witness :
    ∃ w1 : World ℚ, calculate 8 (World.start "5;7;q") = some (.ok () w1) ∧
      w1.cout = (World.start "5;7;q" : World ℚ).cout ++
        sessionOutput [(['5'], (DoubleOps.ofInt 5 : ℚ)), (['7'], DoubleOps.ofInt 7)] ++
        [Out.chr prompt] ∧
      w1.cin = ⟨[], false⟩ :=
  (per_statement_output (D := ℚ) 3 0
    [(['5'], (DoubleOps.ofInt 5 : ℚ)), (['7'], DoubleOps.ofInt 7)] [] (World.start "5;7;q")
    (by
      intro p hp
      simp only [List.mem_cons, List.mem_singleton, List.not_mem_nil, or_false] at hp
      rcases hp with rfl | rfl
      · exact statement_intLit ['5'] 5 (by decide)
      · exact statement_intLit ['7'] 7 (by decide))
    rfl rfl).1

/-- C16: session control.  On `k` print tokens followed by `q` (for every `k`, with
`k + 2` units of fuel or more) `calculate()` returns normally, having consumed them and
written nothing but one prompt: no result marker and no value.  So it does on `q` and on
`;;;q`. -/
theorem session_control {D : Type} [DoubleOps D] (k n : Nat) (b : Token D)
    (rest : List Char) (o : List (Out D)) :
    calculate (n + k + 2) ⟨⟨false, b⟩, ⟨List.replicate k ';' ++ 'q' :: rest, false⟩, o⟩ =
      some (.ok () ⟨⟨false, b⟩, ⟨rest, false⟩, o ++ [Out.chr prompt]⟩) ∧
    calculate 2 (World.start "q" : World ℚ) =
      some (.ok () ⟨Token_stream.new, ⟨[], false⟩, [Out.chr '>']⟩) ∧
    calculate 5 (World.start ";;;q" : World ℚ) =
      some (.ok () ⟨Token_stream.new, ⟨[], false⟩, [Out.chr '>']⟩) := by
  refine ⟨?_, by decide!, by decide!⟩
  cases k with
  | zero =>
    have g := get_symbol b 'q' rest (o ++ [Out.chr prompt]) (by decide)
    exact calculate_quit (n + 1) ⟨⟨false, b⟩, ⟨'q' :: rest, false⟩, o⟩ _ _ _ _ rfl g
      (skipPrints_stop n _ _ (by rw [kind_ofChar]; decide)) rfl
  | succ j =>
    have g := get_symbol b ';' (List.replicate j ';' ++ 'q' :: rest) (o ++ [Out.chr prompt])
      (by decide)
    have e : n + (j + 1) + 2 = (n + j + 2) + 1 := by omega
    rw [e]
    exact calculate_quit (n + j + 2)
      ⟨⟨false, b⟩, ⟨List.replicate (j + 1) ';' ++ 'q' :: rest, false⟩, o⟩ _ _ _ _ rfl g
      (skipPrints_prints j n b rest _) rfl

/-- C17 (counterexample): `primary()` on `-13!;` yields -1932053504, which is not
-(13!). -/
theorem negated_factorial_13_overflows :
    primary 2 (World.start "-13!;" : World ℚ) =
      some (.ok (-1932053504) ⟨Token_stream.new, ⟨[';'], false⟩, []⟩) ∧
    (-1932053504 : ℚ) ≠ -((Nat.factorial 13 : Nat) : ℚ) := by
  constructor <;> decide!

/-- C17 (amended): the factorial binds only to a bare number.  For every integer
literal `n`, `primary()` on `-n!` yields the negation of what it yields on `n!` (the
product of the factorial loop), which is `-(n!)` for `n ≤ 12`.  For a group `( e )` or
`{ e }` followed by `!`, `primary()` returns the value of `e` in the state reached after
the closer: the `!` is still the next token.  `-3!;` yields -6, and `(3)!;` yields 3 with
`!;` unread. -/
theorem factorial_binds_to_number {D : Type} [DoubleOps D] [LawfulDoubleOps D] (k : Nat)
    (b : Token D) (ds rest : List Char) (n : Nat) (o : List (Out D))
    (hn : IntLiteral ds n) :
    primary (k + 1) ⟨⟨false, b⟩, ⟨ds ++ '!' :: rest, false⟩, o⟩ =
      some (.ok (DoubleOps.ofInt (factLoop n 1)) ⟨⟨false, b⟩, ⟨rest, false⟩, o⟩) ∧
    primary (k + 2) ⟨⟨false, b⟩, ⟨'-' :: (ds ++ '!' :: rest), false⟩, o⟩ =
      some (.ok (DoubleOps.neg (DoubleOps.ofInt (factLoop n 1)))
        ⟨⟨false, b⟩, ⟨rest, false⟩, o⟩) ∧
    (n ≤ 12 → primary (k + 2) ⟨⟨false, b⟩, ⟨'-' :: (ds ++ '!' :: rest), false⟩, o⟩ =
      some (.ok (DoubleOps.neg (DoubleOps.ofInt (Nat.factorial n : Int)))
        ⟨⟨false, b⟩, ⟨rest, false⟩, o⟩)) ∧
    (∀ (w w1 w2 w3 w4 : World D) (t t2 t3 : Token D) (d : D),
      Token_stream.get w = .ok t w1 → expression k w1 = some (.ok d w2) →
      Token_stream.get w2 = .ok t2 w3 → Token_stream.get w3 = .ok t3 w4 → t3.kind = '!' →
      (t.kind = '(' → t2.kind = ')' → primary (k + 1) w = some (.ok d w3)) ∧
      (t.kind = '{' → t2.kind = '}' → primary (k + 1) w = some (.ok d w3))) ∧
    primary 2 (World.start "-3!;" : World ℚ) =
      some (.ok (-6) ⟨Token_stream.new, ⟨[';'], false⟩, []⟩) ∧
    primary 6 (World.start "(3)!;" : World ℚ) =
      some (.ok 3 ⟨⟨false, Token.ofChar ')'⟩, ⟨['!', ';'], false⟩, []⟩) := by
  have h1 := primary_intLit_bang (D := D) k b ds n rest o hn
  have h2 := primary_minus (k + 1) _ _ _ _ _
    (get_symbol b '-' (ds ++ '!' :: rest) o (by decide)) rfl h1
  refine ⟨h1, h2, ?_, ?_, by decide!, by decide!⟩
  · intro h12
    rw [h2, factLoop_small n h12]
  · intro w w1 w2 w3 w4 t t2 t3 d hg he hg2 _ _
    have h := primary_group k w w1 w2 w3 t t2 d hg he hg2
    constructor
    · intro hk hc
      rw [h.1 hk, if_pos hc]
    · intro hk hc
      rw [h.2 hk, if_pos hc]

/-- Witness of C17 (amended) on the text `-3!;`. -/
theorem factorial_binds_to_number_witness :
    primary 2 (World.start "-3!;" : World ℚ) =
      some (.ok (DoubleOps.neg (DoubleOps.ofInt (Nat.factorial 3 : Int)))
        ⟨Token_stream.new, ⟨[';'], false⟩, []⟩) :=
  (factorial_binds_to_number (D := ℚ) 0 (Token.ofChar (Char.ofNat 0)) ['3'] [';'] 3 []
    (by decide)).2.2.1 (by decide)

/-- C18 (counterexample): a number token of value 13.5 followed by `!` converts to 13
and `primary()` returns 1932053504, which is not 13!. -/
theorem truncated_factorial_13_overflows :
    primary 1 (⟨⟨true, ⟨Token.number, 27 / 2⟩⟩, ⟨['!'], false⟩, []⟩ : World ℚ) =
      some (.ok 1932053504 ⟨⟨false, ⟨Token.number, 27 / 2⟩⟩, ⟨[], false⟩, []⟩) ∧
    DoubleOps.toInt (27 / 2 : ℚ) = 13 ∧
    (1932053504 : ℚ) ≠ ((Nat.factorial 13 : Nat) : ℚ) := by
  refine ⟨by decide!, by decide!, by decide!⟩

/-- C18 (amended): the conversion comes before the negativity check.  For every number
token of value `v` followed by `!`, with `n` the `int` that `v` converts to: `primary()`
fails with the negative-factorial error if and only if `n < 0`, and otherwise returns the
product of the factorial loop, which is `n!` for `n ≤ 12`.  On the rational instance the
conversion is the truncation toward zero for values in the range of `int`, so a value `v`
with `-1 < v < 0` converts to 0: the token -0.5 followed by `!` yields 1, the token -1.5
followed by `!` raises the error. -/
theorem truncation_before_negativity {D : Type} [DoubleOps D] (k : Nat) (w w1 w2 : World D)
    (t t2 : Token D) (hg : Token_stream.get w = .ok t w1) (hk : t.kind = Token.number)
    (hg2 : Token_stream.get w1 = .ok t2 w2) (hb : t2.kind = '!') :
    (primary (k + 1) w = some (.err .negFactorial w2) ↔ DoubleOps.toInt t.value < 0) ∧
    (0 ≤ DoubleOps.toInt t.value → primary (k + 1) w =
      some (.ok (DoubleOps.ofInt (factLoop (DoubleOps.toInt t.value).toNat 1)) w2)) ∧
    (0 ≤ DoubleOps.toInt t.value → DoubleOps.toInt t.value ≤ 12 → primary (k + 1) w =
      some (.ok (DoubleOps.ofInt (Nat.factorial (DoubleOps.toInt t.value).toNat : Int)) w2)) ∧
    (∀ v : ℚ, -2147483648 ≤ truncQ v → truncQ v < 2147483648 →
      DoubleOps.toInt v = truncQ v) ∧
    (∀ v : ℚ, -1 < v → v < 0 → DoubleOps.toInt v = 0) ∧
    primary 1 (⟨⟨true, ⟨Token.number, -1 / 2⟩⟩, ⟨['!'], false⟩, []⟩ : World ℚ) =
      some (.ok 1 ⟨⟨false, ⟨Token.number, -1 / 2⟩⟩, ⟨[], false⟩, []⟩) ∧
    primary 1 (⟨⟨true, ⟨Token.number, -3 / 2⟩⟩, ⟨['!'], false⟩, []⟩ : World ℚ) =
      some (.err .negFactorial ⟨⟨false, ⟨Token.number, -3 / 2⟩⟩, ⟨[], false⟩, []⟩) := by
  have h := primary_number_bang k w w1 w2 t t2 hg hk hg2 hb
  refine ⟨?_, ?_, ?_, ?_, toIntQ_small_negative, by decide!, by decide!⟩
  · rw [h]
    by_cases hneg : DoubleOps.toInt t.value < 0 <;> simp [hneg]
  · intro h0
    rw [h, if_neg (not_lt.mpr h0)]
  · intro h0 h12
    rw [h, if_neg (not_lt.mpr h0), factLoop_small _ (by omega)]
  · intro v h1 h2
    show toIntQ v = truncQ v
    simp [toIntQ, h1, h2]

/-- Witness of C18 (amended): the number token 3.5 followed by `!`. -/
theorem truncation_before_negativity_witness :
    primary 1 (⟨⟨true, ⟨Token.number, 7 / 2⟩⟩, ⟨['!'], false⟩, []⟩ : World ℚ) =
      some (.ok (DoubleOps.ofInt (Nat.factorial (DoubleOps.toInt (7 / 2 : ℚ)).toNat : Int))
        ⟨⟨false, ⟨Token.number, 7 / 2⟩⟩, ⟨[], false⟩, []⟩) :=
  (truncation_before_negativity (D := ℚ) 0
    ⟨⟨true, ⟨Token.number, 7 / 2⟩⟩, ⟨['!'], false⟩, []⟩
    ⟨⟨false, ⟨Token.number, 7 / 2⟩⟩, ⟨['!'], false⟩, []⟩
    ⟨⟨false, ⟨Token.number, 7 / 2⟩⟩, ⟨[], false⟩, []⟩ ⟨Token.number, 7 / 2⟩ (Token.ofChar '!')
    rfl rfl (by decide!) rfl).2.2.1 (by decide!) (by decide!)

/-- C19: modulo is `fmod`.  For every running value `left` and every operand value `d`
with `d ≠ 0`, the loop of `term()` on `%` replaces `left` by `fmod(left, d)` and goes on
with the next token.  On the rational instance `fmod a b = a - b * trunc (a / b)`, its
sign follows `a`, and it keeps a fractional part: `(11/2)%2;` yields 1.5 and `-7%3;`
yields -1. -/
theorem modulo_is_fmod {D : Type} [DoubleOps D] (n : Nat) (left d : D) (t t2 : Token D)
    (w w1 w2 : World D) (hk : t.kind = '%') (hp : primary n w = some (.ok d w1))
    (hz : DoubleOps.isZero d = false) (hg : Token_stream.get w1 = .ok t2 w2) :
    termLoop (n + 1) left t w = termLoop n (DoubleOps.fmod left d) t2 w2 ∧
    (∀ a b : ℚ, DoubleOps.fmod a b = a - b * (truncQ (a / b) : ℚ)) ∧
    (∀ a b : ℚ, b ≠ 0 → 0 ≤ a → 0 ≤ DoubleOps.fmod a b) ∧
    (∀ a b : ℚ, b ≠ 0 → a ≤ 0 → DoubleOps.fmod a b ≤ 0) ∧
    expression 10 (World.start "(11/2)%2;" : World ℚ) =
      some (.ok (3 / 2) ⟨⟨true, Token.ofChar ';'⟩, ⟨[], false⟩, []⟩) ∧
    expression 6 (World.start "-7%3;" : World ℚ) =
      some (.ok (-1) ⟨⟨true, Token.ofChar ';'⟩, ⟨[], false⟩, []⟩) := by
  have c2 : ¬ ('%' = '*') := by decide
  have c3 : ¬ ('%' = '/') := by decide
  refine ⟨?_, fun _ _ => rfl, fmodQ_nonneg, fmodQ_nonpos, by decide!, by decide!⟩
  simp [termLoop, hk, hp, c2, c3, hz, hg]

/-- Witness of C19: the loop of `term()` after `5.5 %` on the text `2;`. -/
theorem modulo_is_fmod_witness :
    termLoop 2 (11 / 2 : ℚ) (Token.ofChar '%')
        ⟨⟨false, Token.ofChar '%'⟩, ⟨['2', ';'], false⟩, []⟩ =
      termLoop 1 (DoubleOps.fmod (11 / 2 : ℚ) 2) (Token.ofChar ';')
        ⟨⟨false, Token.ofChar ';'⟩, ⟨[], false⟩, []⟩ :=
  (modulo_is_fmod (D := ℚ) 1 (11 / 2) 2 (Token.ofChar '%') (Token.ofChar ';')
    ⟨⟨false, Token.ofChar '%'⟩, ⟨['2', ';'], false⟩, []⟩
    ⟨⟨true, Token.ofChar ';'⟩, ⟨[], false⟩, []⟩
    ⟨⟨false, Token.ofChar ';'⟩, ⟨[], false⟩, []⟩ rfl (by decide!) (by decide!) rfl).1

/-- C20: termination.  For every state `w` (any input text, any buffer), with the
measure `w.size` (the characters that can still be read, plus one for a buffered token):
`primary()`, `term()` and `expression()` return an outcome, a value or an error, with
`3 * w.size + 1`, `+ 2` and `+ 3` units of fuel, and the same outcome with any larger
amount.  Every `get()` that returns a token lowers the measure, and so does every call of
the three functions that returns a value: each recursive call is made on a state with
fewer remaining tokens. -/
theorem grammar_termination {D : Type} [DoubleOps D] (w : World D) :
    (∃ r, ∀ k, primary (3 * w.size + 1 + k) w = some r) ∧
    (∃ r, ∀ k, term (3 * w.size + 2 + k) w = some r) ∧
    (∃ r, ∀ k, expression (3 * w.size + 3 + k) w = some r) ∧
    (∀ (t : Token D) (w1 : World D), Token_stream.get w = .ok t w1 → w1.size < w.size) ∧
    (∀ (n : Nat) (v : D) (w1 : World D),
      (primary n w = some (.ok v w1) → w1.size < w.size) ∧
      (term n w = some (.ok v w1) → w1.size < w.size) ∧
      (expression n w = some (.ok v w1) → w1.size < w.size)) := by
  obtain ⟨rp, hp, pp⟩ := (grammar_terminates (3 * w.size + 1)).1 w (le_refl _)
  obtain ⟨rt, ht, pt⟩ := (grammar_terminates (3 * w.size + 2)).2.2.1 w (le_refl _)
  obtain ⟨re, he, pe⟩ := (grammar_terminates (3 * w.size + 3)).2.2.2.2 w (le_refl _)
  refine ⟨⟨rp, fun k => (grammar_fuel_add _ k w rp).1 hp⟩,
    ⟨rt, fun k => (grammar_fuel_add _ k w rt).2.1 ht⟩,
    ⟨re, fun k => (grammar_fuel_add _ k w re).2.2 he⟩,
    fun t w1 h => get_size h, ?_⟩
  intro n v w1
  refine ⟨fun h => ?_, fun h => ?_, fun h => ?_⟩
  · have h1 := (grammar_fuel_add n (3 * w.size + 1) w _).1 h
    have h2 := (grammar_fuel_add (3 * w.size + 1) n w rp).1 hp
    rw [Nat.add_comm] at h1
    rw [h1] at h2
    cases h2
    exact pp v w1 rfl
  · have h1 := (grammar_fuel_add n (3 * w.size + 2) w _).2.1 h
    have h2 := (grammar_fuel_add (3 * w.size + 2) n w rt).2.1 ht
    rw [Nat.add_comm] at h1
    rw [h1] at h2
    cases h2
    exact pt v w1 rfl
  · have h1 := (grammar_fuel_add n (3 * w.size + 3) w _).2.2 h
    have h2 := (grammar_fuel_add (3 * w.size + 3) n w re).2.2 he
    rw [Nat.add_comm] at h1
    rw [h1] at h2
    cases h2
    exact pe v w1 rfl

end Calculator
